import Mathlib

/-!
Verification development for the Devcast pipeline: a shallow embedding of the
activity/content data model, the GitHub webhook ingestion handlers, the
AI content generator (retry/fallback), and the Telegram approval command
processor, together with theorems settling the specification claims.

Databases are modelled as in-memory lists of records; timestamps are passed
explicitly as `Nat` parameters (mirroring each `new Date()` in the source);
each external AI provider call is an oracle `Nat → Except AIError String`
indexed by the attempt number.
-/

namespace Devcast

/-- Activity lifecycle statuses (src/src/models/Activity.ts). -/
inductive ActivityStatus
  | pending
  | processed
  | published
deriving DecidableEq, Repr

/-- Content lifecycle statuses (Content model, src/unnamed/part_004 lines 1317-1322). -/
inductive ContentStatus
  | pending
  | approved
  | edited
  | rejected
  | posted
deriving DecidableEq, Repr

/-- The type-specific metadata bag stored on an Activity document. Optional
fields mirror the dynamic shapes written by the webhook handlers
(src/pages/api/webhooks/github.ts). -/
structure ActivityMetadata where
  branch : Option String := none
  commitSha : Option String := none
  authorName : Option String := none
  authorEmail : Option String := none
  authorDate : Option String := none
  prNumber : Option Nat := none
  state : Option String := none
  merged : Option Bool := none
  mergedAt : Option String := none
  labels : List String := []
  issueNumber : Option Nat := none
  issueCreatedAt : Option String := none
  closedAt : Option String := none
  tagName : Option String := none
  releaseName : Option String := none
  draft : Option Bool := none
  prerelease : Option Bool := none
  releaseCreatedAt : Option String := none
  releasePublishedAt : Option String := none
deriving DecidableEq, Repr

/-- An Activity document. The source has two diverged schemas: the webhook
handlers write `userId`/`repo` while the GitHub sync service writes
`user`/`repository`, and the content generator's query also reads a legacy
boolean `processed` field; all variants are kept as optional fields. -/
structure Activity where
  id : Nat
  userId : Option Nat := none
  user : Option Nat := none
  type : String := ""
  repo : Option String := none
  repository : Option String := none
  dataRepository : Option String := none
  title : String := ""
  description : String := ""
  githubUrl : Option String := none
  status : ActivityStatus := .pending
  createdAt : Nat := 0
  processedAt : Option Nat := none
  publishedAt : Option Nat := none
  processed : Option Bool := none
  meta : ActivityMetadata := {}
deriving DecidableEq, Repr

/-- The ad hoc metadata bag stored on a Content document by the generator
and the approval processor. -/
structure ContentMetadata where
  generatedBy : Option String := none
  generatedByFallback : Option Bool := none
  error : Option String := none
  approvedBy : Option Nat := none
  approvedAt : Option Nat := none
deriving DecidableEq, Repr

/-- A Content document (Content model, src/unnamed/part_004 lines 1287-1341). -/
structure ContentRec where
  id : Nat
  user : Nat
  relatedActivities : List Nat := []
  text : String := ""
  originalText : Option String := none
  status : ContentStatus := .pending
  platform : String := "twitter"
  postId : Option String := none
  postUrl : Option String := none
  scheduledFor : Option Nat := none
  postedAt : Option Nat := none
  metadata : ContentMetadata := {}
deriving DecidableEq, Repr

/-- A User document, keeping both historical field locations for the GitHub
username/token and the Telegram chat id (the source reads both). -/
structure UserRec where
  id : Nat
  githubUsername : Option String := none
  githubUsernameTop : Option String := none
  githubAccessToken : Option String := none
  accessTokensGithub : Option String := none
  telegramChatId : Option String := none
  legacyTelegramChatId : Option String := none
  hasTwitterCreds : Bool := false
  settingsAiProvider : Option String := none
  settingsContentStyle : Option String := none
deriving DecidableEq, Repr

/-- The persisted store: the Activity and Content collections plus fresh-id
counters standing for MongoDB object-id generation. -/
structure AppState where
  activities : List Activity := []
  contents : List ContentRec := []
  nextActivityId : Nat := 0
  nextContentId : Nat := 0
deriving DecidableEq, Repr

/-- JS `s.split('\n')[0]`. -/
def firstLine (s : String) : String := (s.splitOn "\n").headD ""

/-- JS `s.split('\n').slice(1).join('\n')`. -/
def restLines (s : String) : String := String.intercalate "\n" ((s.splitOn "\n").drop 1)

/-- JS `s.replace(pat, '')` — removes only the first occurrence. -/
def removeFirst (s pat : String) : String :=
  match s.splitOn pat with
  | [] => s
  | [x] => x
  | x :: xs => x ++ String.intercalate pat xs

/-- JS `s.substring(0, n)` (also used for `.slice(0, n)` on strings). -/
def strTake (s : String) (n : Nat) : String := String.mk (s.data.take n)

/-- JS truthiness for an optional string: `undefined` and `""` are falsy. -/
def strTruthy : Option String → Option String
  | some s => if s = "" then none else some s
  | none => none

/-- One commit object inside a push webhook payload. -/
structure PushCommit where
  id : String
  message : String
  url : String
  authorName : Option String := none
  authorEmail : Option String := none
  timestamp : Option String := none
deriving DecidableEq, Repr

/-- A push webhook payload (already past the missing-repository validation:
the repository full name and owner login are structurally present). -/
structure PushPayload where
  repoFullName : String
  ownerLogin : String
  ref : String
  commits : List PushCommit
deriving DecidableEq, Repr

/-- A pull_request webhook payload. -/
structure PullRequestPayload where
  repoFullName : String
  ownerLogin : String
  action : String
  number : Nat
  title : String
  body : Option String := none
  htmlUrl : String := ""
  state : String
  merged : Option Bool := none
  mergedAt : Option String := none
  labels : List String := []
deriving DecidableEq, Repr

/-- An issues webhook payload. -/
structure IssuePayload where
  repoFullName : String
  ownerLogin : String
  action : String
  number : Nat
  title : String
  body : Option String := none
  htmlUrl : String := ""
  state : String
  createdAt : Option String := none
  closedAt : Option String := none
  labels : List String := []
deriving DecidableEq, Repr

/-- A release webhook payload. -/
structure ReleasePayload where
  repoFullName : String
  ownerLogin : String
  action : String
  tagName : String
  name : Option String := none
  body : Option String := none
  htmlUrl : String := ""
  draft : Bool := false
  prerelease : Bool := false
  createdAt : Option String := none
  publishedAt : Option String := none
deriving DecidableEq, Repr

/-- `User.findOne({$or: [{'github.username': u}, {githubUsername: u}]})` —
the webhook handlers check both historical username locations. -/
def findUserByLogin (users : List UserRec) (login : String) : Option UserRec :=
  users.find? (fun u => u.githubUsername == some login || u.githubUsernameTop == some login)

/-- `user.github?.accessToken || user.accessTokens?.github` presence check. -/
def userHasGithubToken (u : UserRec) : Bool :=
  u.githubAccessToken.isSome || u.accessTokensGithub.isSome

/-- Natural-key lookup used by `handlePushEvent` for one commit:
`{userId, type: 'commit', 'metadata.commitSha': commit.id}`. -/
def commitKeyMatches (uid : Nat) (sha : String) (a : Activity) : Bool :=
  a.userId == some uid && a.type == "commit" && a.meta.commitSha == some sha

/-- The Activity document `handlePushEvent` creates for a new commit. -/
def mkCommitActivity (aid uid : Nat) (p : PushPayload) (c : PushCommit) (now : Nat) : Activity :=
  { id := aid
    userId := some uid
    type := "commit"
    repo := some p.repoFullName
    title := (firstLine c.message).trim
    description := restLines c.message
    githubUrl := some c.url
    status := .pending
    createdAt := now
    meta := { branch := some (removeFirst p.ref "refs/heads/")
              commitSha := some c.id
              authorName := c.authorName
              authorEmail := c.authorEmail
              authorDate := c.timestamp } }

/-- One iteration of `handlePushEvent`'s commit loop: skip if the natural key
already exists, otherwise create the Activity. -/
def processPushCommit (uid : Nat) (p : PushPayload) (now : Nat) (st : AppState) (c : PushCommit) : AppState :=
  match st.activities.find? (commitKeyMatches uid c.id) with
  | some _ => st
  | none =>
    { st with
      activities := st.activities ++ [mkCommitActivity st.nextActivityId uid p c now]
      nextActivityId := st.nextActivityId + 1 }

/-- `handlePushEvent` (src/pages/api/webhooks/github.ts lines 102-187):
look up the user by owner login, require a GitHub token, then dedup-insert
each commit of the payload. -/
def handlePushEvent (users : List UserRec) (p : PushPayload) (now : Nat) (st : AppState) : AppState :=
  match findUserByLogin users p.ownerLogin with
  | none => st
  | some u =>
    if userHasGithubToken u then p.commits.foldl (processPushCommit u.id p now) st
    else st

/-- Natural-key lookup used by `handlePullRequestEvent`:
`{userId, type: 'pr', repo, 'metadata.prNumber': pr.number}`. -/
def prKeyMatches (uid : Nat) (repo : String) (n : Nat) (a : Activity) : Bool :=
  a.userId == some uid && a.type == "pr" && a.repo == some repo && a.meta.prNumber == some n

/-- The metadata object built from a pull_request payload. -/
def prMetadata (p : PullRequestPayload) : ActivityMetadata :=
  { prNumber := some p.number
    state := some p.state
    merged := some (p.merged.getD false)
    mergedAt := p.mergedAt
    labels := p.labels }

/-- The Activity document `handlePullRequestEvent` creates for a new PR. -/
def mkPrActivity (aid uid : Nat) (p : PullRequestPayload) (now : Nat) : Activity :=
  { id := aid
    userId := some uid
    type := "pr"
    repo := some p.repoFullName
    title := p.title
    description := p.body.getD ""
    githubUrl := some p.htmlUrl
    status := .pending
    createdAt := now
    meta := prMetadata p }

/-- The in-place update `Activity.findByIdAndUpdate(existingActivity._id,
{title, description, metadata})` applied by the PR handler. -/
def prUpdate (p : PullRequestPayload) (a : Activity) : Activity :=
  { a with title := p.title, description := p.body.getD "", meta := prMetadata p }

/-- The dedup-then-insert-or-update core of `handlePullRequestEvent`: create
the Activity when the natural key is absent, else update title, description
and metadata in place only when the state or merge flag changed. -/
def prUpsert (uid : Nat) (p : PullRequestPayload) (now : Nat) (st : AppState) : AppState :=
  match st.activities.find? (prKeyMatches uid p.repoFullName p.number) with
  | none =>
    { st with
      activities := st.activities ++ [mkPrActivity st.nextActivityId uid p now]
      nextActivityId := st.nextActivityId + 1 }
  | some ex =>
    if !(ex.meta.state == some p.state && ex.meta.merged == some (p.merged.getD false)) then
      { st with
        activities := st.activities.map (fun a => if a.id == ex.id then prUpdate p a else a) }
    else st

/-- `handlePullRequestEvent` (github.ts lines 192-284): only `opened`,
`closed`, `reopened` actions; look up the user and require a token; then
dedup-insert-or-update by natural key. -/
def handlePullRequestEvent (users : List UserRec) (p : PullRequestPayload) (now : Nat) (st : AppState) : AppState :=
  if !(p.action == "opened" || p.action == "closed" || p.action == "reopened") then st
  else
    match findUserByLogin users p.ownerLogin with
    | none => st
    | some u => if !userHasGithubToken u then st else prUpsert u.id p now st

/-- Natural-key lookup used by `handleIssueEvent`:
`{userId, type: 'issue', repo, 'metadata.issueNumber': issue.number}`. -/
def issueKeyMatches (uid : Nat) (repo : String) (n : Nat) (a : Activity) : Bool :=
  a.userId == some uid && a.type == "issue" && a.repo == some repo && a.meta.issueNumber == some n

/-- The metadata object built from an issues payload. -/
def issueMetadata (p : IssuePayload) : ActivityMetadata :=
  { issueNumber := some p.number
    state := some p.state
    issueCreatedAt := p.createdAt
    closedAt := p.closedAt
    labels := p.labels }

/-- The Activity document `handleIssueEvent` creates for a new issue. -/
def mkIssueActivity (aid uid : Nat) (p : IssuePayload) (now : Nat) : Activity :=
  { id := aid
    userId := some uid
    type := "issue"
    repo := some p.repoFullName
    title := p.title
    description := p.body.getD ""
    githubUrl := some p.htmlUrl
    status := .pending
    createdAt := now
    meta := issueMetadata p }

/-- The in-place update applied by the issue handler. -/
def issueUpdate (p : IssuePayload) (a : Activity) : Activity :=
  { a with title := p.title, description := p.body.getD "", meta := issueMetadata p }

/-- The dedup-then-insert-or-update core of `handleIssueEvent`; the
update-in-place condition compares only the stored state. -/
def issueUpsert (uid : Nat) (p : IssuePayload) (now : Nat) (st : AppState) : AppState :=
  match st.activities.find? (issueKeyMatches uid p.repoFullName p.number) with
  | none =>
    { st with
      activities := st.activities ++ [mkIssueActivity st.nextActivityId uid p now]
      nextActivityId := st.nextActivityId + 1 }
  | some ex =>
    if !(ex.meta.state == some p.state) then
      { st with
        activities := st.activities.map (fun a => if a.id == ex.id then issueUpdate p a else a) }
    else st

/-- `handleIssueEvent` (github.ts lines 289-381): like the PR handler but for
issue payloads. -/
def handleIssueEvent (users : List UserRec) (p : IssuePayload) (now : Nat) (st : AppState) : AppState :=
  if !(p.action == "opened" || p.action == "closed" || p.action == "reopened") then st
  else
    match findUserByLogin users p.ownerLogin with
    | none => st
    | some u => if !userHasGithubToken u then st else issueUpsert u.id p now st

/-- Natural-key lookup used by `handleReleaseEvent`:
`{userId, type: 'release', repo, 'metadata.tagName': release.tag_name}`. -/
def releaseKeyMatches (uid : Nat) (repo : String) (tag : String) (a : Activity) : Bool :=
  a.userId == some uid && a.type == "release" && a.repo == some repo && a.meta.tagName == some tag

/-- The Activity document `handleReleaseEvent` creates for a new release;
the title is `release.name || release.tag_name`. -/
def mkReleaseActivity (aid uid : Nat) (p : ReleasePayload) (now : Nat) : Activity :=
  { id := aid
    userId := some uid
    type := "release"
    repo := some p.repoFullName
    title := (strTruthy p.name).getD p.tagName
    description := p.body.getD ""
    githubUrl := some p.htmlUrl
    status := .pending
    createdAt := now
    meta := { tagName := some p.tagName
              releaseName := p.name
              draft := some p.draft
              prerelease := some p.prerelease
              releaseCreatedAt := p.createdAt
              releasePublishedAt := p.publishedAt } }

/-- The dedup-then-insert core of `handleReleaseEvent`: skip entirely when
the natural key already exists. -/
def releaseUpsert (uid : Nat) (p : ReleasePayload) (now : Nat) (st : AppState) : AppState :=
  match st.activities.find? (releaseKeyMatches uid p.repoFullName p.tagName) with
  | some _ => st
  | none =>
    { st with
      activities := st.activities ++ [mkReleaseActivity st.nextActivityId uid p now]
      nextActivityId := st.nextActivityId + 1 }

/-- `handleReleaseEvent` (github.ts lines 386-469): only `published` actions;
look up the user and require a token; then dedup-insert by natural key. -/
def handleReleaseEvent (users : List UserRec) (p : ReleasePayload) (now : Nat) (st : AppState) : AppState :=
  if !(p.action == "published") then st
  else
    match findUserByLogin users p.ownerLogin with
    | none => st
    | some u => if !userHasGithubToken u then st else releaseUpsert u.id p now st

/-- The shape of an error thrown by an AI provider SDK call, as inspected by
`ContentGenerator.isRetryableError` (src/unnamed/part_004 lines 930-947). -/
structure AIError where
  message : String := ""
  code : Option String := none
  etype : Option String := none
  status : Option Nat := none
deriving DecidableEq, Repr

/-- `ContentGenerator.isRetryableError`: network resets/timeouts, provider
`server_error`/`rate_limit_exceeded` types, HTTP 429 and 5xx are retryable;
everything else is not. -/
def isRetryableError (e : AIError) : Bool :=
  if e.code == some "ECONNRESET" || e.code == some "ETIMEDOUT" then true
  else if e.etype == some "server_error" || e.etype == some "rate_limit_exceeded" then true
  else
    match e.status with
    | some s => s == 429 || (decide (500 ≤ s) && decide (s < 600))
    | none => false

/-- The observable trace of one `callOpenAI`/`callAnthropic` invocation:
the final outcome, the number of provider calls made, and the backoff delays
slept between calls. -/
structure RetryTrace where
  result : Except AIError String
  calls : Nat
  delays : List Nat
deriving Repr

/-- The retry loop shared by `ContentGenerator.callOpenAI` (part_004 lines
626-675) and `ContentGenerator.callAnthropic` (lines 701-868): call the
provider; on a retryable error while `retries < maxRetries`, increment
`retries`, sleep `retryDelay * 2^(retries-1)` and loop; otherwise rethrow.
`remaining` stands for `maxRetries - retries`, so `remaining = 0` encodes the
exhausted bound; the oracle is indexed by the current `retries` counter. -/
def providerCallLoop (oracle : Nat → Except AIError String) (retryDelay : Nat) :
    Nat → Nat → RetryTrace
  | retries, 0 =>
    match oracle retries with
    | .ok t => { result := .ok t, calls := 1, delays := [] }
    | .error e => { result := .error e, calls := 1, delays := [] }
  | retries, remaining' + 1 =>
    match oracle retries with
    | .ok t => { result := .ok t, calls := 1, delays := [] }
    | .error e =>
      if isRetryableError e then
        let rest := providerCallLoop oracle retryDelay (retries + 1) remaining'
        { result := rest.result, calls := rest.calls + 1,
          delays := retryDelay * 2 ^ retries :: rest.delays }
      else { result := .error e, calls := 1, delays := [] }

/-- A full provider call with retries, starting from `retries = 0`. -/
def providerCallRetry (oracle : Nat → Except AIError String) (maxRetries retryDelay : Nat) : RetryTrace :=
  providerCallLoop oracle retryDelay 0 maxRetries

/-- The observable trace of one `generateWithRetry` invocation: the returned
text (or null), the number of provider calls, and the backoff delays. -/
structure GenRetryTrace where
  result : Option String
  calls : Nat
  delays : List Nat
deriving DecidableEq, Repr

/-- `ContentGenerator.generateWithRetry` (part_004 lines 116-169): if
`attempts >= maxRetries` return null; otherwise call the configured provider
(which may itself return null text); on ANY thrown error — there is no
retryability check on this path — sleep `retryDelay * 2^attempts` and recurse
with `attempts + 1`. `remaining` stands for `maxRetries - attempts`. -/
def generateWithRetryLoop (oracle : Nat → Except AIError (Option String))
    (providerAvailable : Bool) (retryDelay : Nat) : Nat → Nat → GenRetryTrace
  | _attempts, 0 => { result := none, calls := 0, delays := [] }
  | attempts, remaining + 1 =>
    if providerAvailable then
      match oracle attempts with
      | .ok t => { result := t, calls := 1, delays := [] }
      | .error _ =>
        let rest := generateWithRetryLoop oracle providerAvailable retryDelay (attempts + 1) remaining
        { result := rest.result, calls := rest.calls + 1,
          delays := retryDelay * 2 ^ attempts :: rest.delays }
    else { result := none, calls := 0, delays := [] }

/-- `generateWithRetry` starting from `attempts = 0`. -/
def generateWithRetry (oracle : Nat → Except AIError (Option String))
    (providerAvailable : Bool) (maxRetries retryDelay : Nat) : GenRetryTrace :=
  generateWithRetryLoop oracle providerAvailable retryDelay 0 maxRetries

/-- `ContentGenerator.getEmojiForActivityType` (part_004 lines 250-263). -/
def getEmojiForActivityType (t : String) : String :=
  if t == "commit" then "💻"
  else if t == "pr" then "🔀"
  else if t == "issue" then "🐛"
  else if t == "release" then "🚀"
  else "✨"

/-- `ContentGenerator.generateFallbackTweetForActivity` (part_004 lines
239-245): emoji + template + hashtags built from the repo and the first 100
characters of the title. -/
def generateFallbackTweetForActivity (a : Activity) : String :=
  let emoji := getEmojiForActivityType a.type
  let repo := a.repo.getD ""
  let hashtags := "#GitHub #" ++ ((repo.splitOn "-").foldl (· ++ ·) "") ++ " #" ++ a.type
  emoji ++ " Just " ++ (if a.type == "commit" then "committed" else "created a " ++ a.type)
    ++ " in " ++ repo ++ ": \"" ++ strTake a.title 100
    ++ (if 100 < a.title.length then "..." else "") ++ "\" " ++ hashtags

/-- `ContentGenerator.generateTweetFromActivity` (part_004 lines 174-199),
with the provider interaction abstracted into its returned completion: when
the completion is truthy (non-null, non-empty) the text is trimmed and
truncated to 280 characters (`substring(0, 277) + '...'` when over);
otherwise the deterministic fallback tweet is produced. -/
def generateTweetFromActivity (completionResult : Option String) (activity : Activity) : String :=
  match completionResult with
  | some r =>
    if r == "" then generateFallbackTweetForActivity activity
    else
      let tweetText := r.trim
      if 280 < tweetText.length then strTake tweetText 277 ++ "..." else tweetText
  | none => generateFallbackTweetForActivity activity

/-- Leftmost maximal digit run of a character list. -/
def digitRun : List Char → List Char × List Char
  | [] => ([], [])
  | c :: rest =>
    if c.isDigit then
      let (d, r) := digitRun rest
      (c :: d, r)
    else ([], c :: rest)

/-- Match `\d+\.\d+\.\d+` at the head of a character list, returning the
matched characters. -/
def semverAt (l : List Char) : Option (List Char) :=
  let (d1, r1) := digitRun l
  if d1.isEmpty then none
  else
    match r1 with
    | '.' :: r2 =>
      let (d2, r3) := digitRun r2
      if d2.isEmpty then none
      else
        match r3 with
        | '.' :: r4 =>
          let (d3, _) := digitRun r4
          if d3.isEmpty then none else some (d1 ++ '.' :: d2 ++ '.' :: d3)
        | _ => none
    | _ => none

/-- Leftmost match of the JS regex `v?(\d+\.\d+\.\d+)`, returning capture
group 1 (the part after an optional leading `v`). -/
def findSemverAux : List Char → Option (List Char)
  | [] => none
  | c :: rest =>
    match if c == 'v' then semverAt rest else semverAt (c :: rest) with
    | some g => some g
    | none => findSemverAux rest

/-- `title.match(/v?(\d+\.\d+\.\d+)/)?.[1]`. -/
def findSemver (s : String) : Option String := (findSemverAux s.data).map String.mk

/-- `repository.split('/')[1] || repository` guarded by
`repository && repository !== 'undefined'`, else `'my project'`
(part_004 lines 876-878). -/
def repoShortName (repository : String) : String :=
  if repository ≠ "" ∧ repository ≠ "undefined" then
    match (repository.splitOn "/").get? 1 with
    | some seg => if seg = "" then repository else seg
    | none => repository
  else "my project"

/-- Stable insertion keeping strictly-greater keys in front (descending). -/
def insertByCreatedAtDesc (a : Activity) : List Activity → List Activity
  | [] => [a]
  | b :: rest =>
    if a.createdAt ≤ b.createdAt then b :: insertByCreatedAtDesc a rest
    else a :: b :: rest

/-- Stable descending sort by `createdAt`, modelling the JS
`sort((a, b) => new Date(b.createdAt) - new Date(a.createdAt))`. -/
def sortByCreatedAtDesc (l : List Activity) : List Activity :=
  l.foldl (fun acc a => insertByCreatedAtDesc a acc) []

/-- `repoName.toLowerCase().replace(/[^a-z0-9]/g, '')`. -/
def sanitizeTag (s : String) : String :=
  String.mk ((s.toLower.data).filter fun c =>
    ('a' ≤ c ∧ c ≤ 'z') ∨ ('0' ≤ c ∧ c ≤ '9'))

/-- `ContentGenerator.generateFallbackContent` (part_004 lines 874-925): the
deterministic template synthesized when every AI attempt failed. -/
def generateFallbackContent (repository : String) (activities : List Activity) : String :=
  let repoName := repoShortName repository
  let commitCount := (activities.filter (fun a => a.type == "commit")).length
  let prCount := (activities.filter (fun a => a.type == "pull_request" || a.type == "pr")).length
  let issueCount := (activities.filter (fun a => a.type == "issue")).length
  let releaseCount := (activities.filter (fun a => a.type == "release")).length
  let recentTitles :=
    (((sortByCreatedAtDesc activities).take 2).map (fun a => strTake a.title 40)).filter
      (fun t => t ≠ "")
  let text := "Just made progress on " ++ repoName ++ "! "
  let text :=
    if 0 < releaseCount then
      let ver :=
        match activities.find? (fun a => a.type == "release") with
        | some a => (findSemver a.title).getD "new version"
        | none => "new version"
      text ++ "🚀 Released v" ++ ver ++ ". "
    else
      let activityTypes :=
        (if 0 < commitCount then
          [toString commitCount ++ " commit" ++ (if 1 < commitCount then "s" else "")] else [])
        ++ (if 0 < prCount then
          [toString prCount ++ " PR" ++ (if 1 < prCount then "s" else "")] else [])
        ++ (if 0 < issueCount then
          [toString issueCount ++ " issue" ++ (if 1 < issueCount then "s" else "")] else [])
      if activityTypes ≠ [] then text ++ "Added " ++ String.intercalate ", " activityTypes ++ ". "
      else text
  let text :=
    match recentTitles with
    | [] => text
    | t0 :: rest =>
      text ++ "Latest: " ++ t0 ++ (if rest ≠ [] then " and more" else "") ++ ". "
  text ++ "#" ++ (if repoName ≠ "my project" then sanitizeTag repoName else "coding") ++ " #devwork"

/-- The provider configuration of a `ContentGenerator` instance after its
constructor ran: selected provider plus which SDK clients were initialized. -/
structure GenConfig where
  provider : String := "anthropic"
  openaiConfigured : Bool := false
  anthropicConfigured : Bool := false
  maxRetries : Nat := 3
  retryDelay : Nat := 1000
deriving DecidableEq, Repr

/-- The provider switch at the top of `generateContentForRepository`
(part_004 lines 398-407): honor the user's stored preference when that
provider is configured, else keep the instance provider. -/
def effectiveProvider (cfg : GenConfig) (user : UserRec) : String :=
  match user.settingsAiProvider with
  | some pref =>
    if pref ≠ "" ∧ pref ≠ cfg.provider ∧
        ((pref == "openai" && cfg.openaiConfigured) ||
         (pref == "anthropic" && cfg.anthropicConfigured)) = true then pref
    else cfg.provider
  | none => cfg.provider

/-- `ContentGenerator.generateTextWithAI` (part_004 lines 565-578): dispatch
to the configured provider's retry loop, or throw when the selected provider
is unavailable. -/
def generateTextWithAI (provider : String) (cfg : GenConfig)
    (oracle : Nat → Except AIError String) : Except AIError String :=
  if provider == "openai" && cfg.openaiConfigured then
    (providerCallRetry oracle cfg.maxRetries cfg.retryDelay).result
  else if provider == "anthropic" && cfg.anthropicConfigured then
    (providerCallRetry oracle cfg.maxRetries cfg.retryDelay).result
  else .error { message := "Selected provider " ++ provider ++ " is not available" }

/-- `Activity.updateMany({_id: {$in: ids}}, {$set: {status: 'processed',
processedAt: now}})`. -/
def markActivitiesProcessed (ids : List Nat) (now : Nat) (acts : List Activity) : List Activity :=
  acts.map fun a =>
    if ids.contains a.id then { a with status := .processed, processedAt := some now } else a

/-- The fallback Content document created in the catch branch of
`generateContentForRepository` (part_004 lines 454-467). -/
def fallbackContentRecord (userId : Nat) (repository : String) (activities : List Activity)
    (errMsg : String) (cid : Nat) : ContentRec :=
  let fallbackText := generateFallbackContent repository activities
  { id := cid
    user := userId
    relatedActivities := activities.map (·.id)
    text := fallbackText
    originalText := some fallbackText
    status := .pending
    platform := "twitter"
    metadata := { error := some errMsg, generatedByFallback := some true } }

/-- Shared tail of both branches of `generateContentForRepository`: persist
the Content record, then (when the activity set is non-empty) mark every
consumed Activity `processed`. -/
def finishGeneration (content : ContentRec) (activities : List Activity)
    (st : AppState) (now : Nat) : ContentRec × AppState :=
  let st₁ := { st with contents := st.contents ++ [content], nextContentId := st.nextContentId + 1 }
  let st₂ :=
    if activities.isEmpty then st₁
    else { st₁ with activities := markActivitiesProcessed (activities.map (·.id)) now st₁.activities }
  (content, st₂)

/-- `ContentGenerator.generateContentForRepository` (part_004 lines 387-490):
look up the user, pick the effective provider, request generation with
retries; on success create a pending Content tagged with the provider; on any
thrown error create the fallback Content tagged `generatedByFallback`; in
both cases mark the consumed Activities `processed`. -/
def generateContentForRepository (users : List UserRec) (cfg : GenConfig)
    (oracle : Nat → Except AIError String) (userId : Nat)
    (repository : String) (activities : List Activity)
    (st : AppState) (now : Nat) : ContentRec × AppState :=
  match users.find? (fun u => u.id == userId) with
  | none =>
    finishGeneration
      (fallbackContentRecord userId repository activities "User not found" st.nextContentId)
      activities st now
  | some user =>
    let provider := effectiveProvider cfg user
    match generateTextWithAI provider cfg oracle with
    | .ok generatedText =>
      finishGeneration
        { id := st.nextContentId
          user := userId
          relatedActivities := activities.map (·.id)
          text := generatedText
          originalText := some generatedText
          status := .pending
          platform := "twitter"
          metadata := { generatedBy := some provider } }
        activities st now
    | .error e =>
      finishGeneration
        (fallbackContentRecord userId repository activities e.message st.nextContentId)
        activities st now

/-- The repository-name fallback chain of `groupActivitiesByRepository`
(part_004 lines 352-382): `activity.repo`, else `activity.repository`, else
`ssaulgoodman/` + `activity.data.repository`, else the default repo. -/
def groupKey (a : Activity) : String :=
  match strTruthy a.repo with
  | some r => r
  | none =>
    match strTruthy a.repository with
    | some r => r
    | none =>
      match strTruthy a.dataRepository with
      | some d => "ssaulgoodman/" ++ d
      | none => "ssaulgoodman/devcast"

/-- Group keys in first-occurrence order (JS object key insertion order). -/
def groupOrder (acts : List Activity) : List String :=
  acts.foldl (fun ks a => if ks.contains (groupKey a) then ks else ks ++ [groupKey a]) []

/-- Pick the entry with the most members, first-encountered winning ties
(stable descending sort then head). -/
def pickMostActive : List (String × List Activity) → Option (String × List Activity)
  | [] => none
  | e :: rest =>
    match pickMostActive rest with
    | none => some e
    | some m => if e.2.length < m.2.length then some m else some e

/-- `Object.entries(groupActivitiesByRepository(activities)).sort(...)[0]`. -/
def mostActiveRepo (acts : List Activity) : Option (String × List Activity) :=
  pickMostActive ((groupOrder acts).map fun k => (k, acts.filter fun a => groupKey a == k))

/-- The query filter of `generateContent`:
`Activity.find({user: userId, processed: false})`. -/
def unprocessedFilter (userId : Nat) (a : Activity) : Bool :=
  a.user == some userId && a.processed == some false

/-- `ContentGenerator.generateContent` (part_004 lines 303-347): fetch up to
10 unprocessed activities (newest first); if none, return null touching
nothing; else generate for the most active repository and set the legacy
`processed` flag on the consumed activities. -/
def generateContent (users : List UserRec) (cfg : GenConfig)
    (oracle : Nat → Except AIError String) (userId : Nat)
    (st : AppState) (now : Nat) : Option ContentRec × AppState :=
  let acts := (sortByCreatedAtDesc (st.activities.filter (unprocessedFilter userId))).take 10
  if acts.isEmpty then (none, st)
  else
    match mostActiveRepo acts with
    | none => (none, st)
    | some (repoName, repoActivities) =>
      let (content, st') :=
        generateContentForRepository users cfg oracle userId repoName repoActivities st now
      let st'' :=
        { st' with
          activities := st'.activities.map fun a =>
            if (repoActivities.map (·.id)).contains a.id then { a with processed := some true }
            else a }
      (some content, st'')

/-- Outcome of a Telegram command handler that can throw before mutating. -/
inductive CmdResult
  | ok
  | notFound
  | unauthorized
deriving DecidableEq, Repr

/-- The ownership check of the later-variant `rejectContent`/`editContent`:
`User.findOne({_id: content.user, 'telegram.chatId': chatId.toString()})`. -/
def contentOwnerAuth (users : List UserRec) (c : ContentRec) (chatId : Nat) : Option UserRec :=
  users.find? fun u => u.id == c.user && u.telegramChatId == some (toString chatId)

/-- The ownership check of the earlier-variant handlers:
`User.findOne({_id: content.user, telegramChatId: chatId.toString()})`. -/
def legacyContentOwnerAuth (users : List UserRec) (c : ContentRec) (chatId : Nat) : Option UserRec :=
  users.find? fun u => u.id == c.user && u.legacyTelegramChatId == some (toString chatId)

/-- Modelled from the spec: `TwitterService.saveApprovedTweet`, called by the
later-variant `approveContent`, is not present in the source tree (the
`TwitterService` that is present has no such method). Per the spec, approve
"sets scheduled-for to now (immediate)", so the call is modelled as stamping
the approved Content's `scheduledFor` with the current time. -/
def saveApprovedTweetModel (contents : List ContentRec) (cid now : Nat) : List ContentRec :=
  contents.map fun c => if c.id == cid then { c with scheduledFor := some now } else c

/-- Later-variant `TelegramService.approveContent`
(src/src/services/telegramService.ts lines 1204-1282): find the Content and
the acting user — the ownership/role check is commented out in the source —
then set status `approved`, stamp `approvedBy`/`approvedAt` in the metadata,
run `saveApprovedTweet` when the user has Twitter credentials (its errors are
swallowed), and set every related Activity to `published`. Returns the reply
message. -/
def approveContent (users : List UserRec) (st : AppState) (contentId userId now : Nat) :
    String × AppState :=
  match st.contents.find? (fun c => c.id == contentId) with
  | none => ("Content not found", st)
  | some content =>
    match users.find? (fun u => u.id == userId) with
    | none => ("User not found", st)
    | some user =>
      let content' :=
        { content with
          status := .approved
          metadata := { content.metadata with approvedBy := some userId, approvedAt := some now } }
      let contents₁ := st.contents.map fun c => if c.id == contentId then content' else c
      let contents₂ :=
        if user.hasTwitterCreds then saveApprovedTweetModel contents₁ contentId now else contents₁
      let activities' :=
        if content.relatedActivities.isEmpty then st.activities
        else
          st.activities.map fun a =>
            if content.relatedActivities.contains a.id then
              { a with status := .published, publishedAt := some now }
            else a
      ("Content approved successfully", { st with contents := contents₂, activities := activities' })

/-- `Content.exists({relatedActivities: aid, status: {$in: ['approved',
'posted']}, _id: {$ne: cid}})` — the cascade guard inside `rejectContent`. -/
def otherApprovedExists (contents : List ContentRec) (cid aid : Nat) : Bool :=
  contents.any fun c =>
    c.relatedActivities.contains aid &&
      (c.status == .approved || c.status == .posted) && c.id != cid

/-- Later-variant `TelegramService.rejectContent` (telegramService.ts lines
1287-1343): require ownership; set status `rejected`; then for each related
Activity with no other approved/posted Content referencing it, revert the
Activity to `processed`. The existence query runs against the store after the
status update. -/
def rejectContent (users : List UserRec) (st : AppState) (contentId chatId now : Nat) :
    CmdResult × AppState :=
  match st.contents.find? (fun c => c.id == contentId) with
  | none => (.notFound, st)
  | some content =>
    match contentOwnerAuth users content chatId with
    | none => (.unauthorized, st)
    | some _ =>
      let contents' :=
        st.contents.map fun c => if c.id == contentId then { c with status := .rejected } else c
      let activities' :=
        st.activities.map fun a =>
          if content.relatedActivities.contains a.id && !otherApprovedExists contents' contentId a.id
          then { a with status := .processed, processedAt := some now }
          else a
      (.ok, { st with contents := contents', activities := activities' })

/-- Later-variant `TelegramService.editContent` (telegramService.ts lines
1348-1382): require ownership; overwrite the text and return the status to
`pending` ("Keep as pending until explicitly approved"). -/
def editContent (users : List UserRec) (st : AppState) (contentId : Nat) (newText : String)
    (chatId : Nat) : CmdResult × AppState :=
  match st.contents.find? (fun c => c.id == contentId) with
  | none => (.notFound, st)
  | some content =>
    match contentOwnerAuth users content chatId with
    | none => (.unauthorized, st)
    | some _ =>
      let contents' :=
        st.contents.map fun c =>
          if c.id == contentId then { c with text := newText, status := .pending } else c
      (.ok, { st with contents := contents' })

/-- Earlier-variant `TelegramService.editContent` (telegramService.ts lines
259-287, "Edit and approve content"): require ownership (via the legacy
`telegramChatId` field); overwrite the text and set status `edited`. -/
def legacyEditContent (users : List UserRec) (st : AppState) (contentId : Nat) (newText : String)
    (chatId : Nat) : CmdResult × AppState :=
  match st.contents.find? (fun c => c.id == contentId) with
  | none => (.notFound, st)
  | some content =>
    match legacyContentOwnerAuth users content chatId with
    | none => (.unauthorized, st)
    | some _ =>
      let contents' :=
        st.contents.map fun c =>
          if c.id == contentId then { c with text := newText, status := .edited } else c
      (.ok, { st with contents := contents' })

/-- The eligibility filter of `Scheduler.postApprovedContent` (src/unnamed/
part_003 lines 131-141): `status ∈ {approved, edited}` and no `postedAt`. -/
def schedulerPostableFilter (c : ContentRec) : Bool :=
  (c.status == .approved || c.status == .edited) && c.postedAt == none

/-- The successful-post update of `TwitterService.postTweet`
(src/src/services/activityService.ts lines 162-177): stamp `postId`,
`postUrl`, `status: posted`, `postedAt` on the Content. No Activity document
is touched anywhere in `postTweet`. -/
def postTweetUpdate (st : AppState) (contentId : Nat) (tweetId : String) (now : Nat) : AppState :=
  { st with
    contents := st.contents.map fun c =>
      if c.id == contentId then
        { c with
          postId := some tweetId
          postUrl := some ("https://twitter.com/i/status/" ++ tweetId)
          status := .posted
          postedAt := some now }
      else c }

/-! ## Helper lemmas -/

theorem find?_append_of_none {α} {l₁ l₂ : List α} {f : α → Bool}
    (h : l₁.find? f = none) : (l₁ ++ l₂).find? f = l₂.find? f := by
  rw [List.find?_append, h, Option.none_or]

theorem find?_isSome_append_left {α} {l₁ : List α} (l₂ : List α) {f : α → Bool}
    (h : (l₁.find? f).isSome) : ((l₁ ++ l₂).find? f).isSome := by
  rw [List.find?_append]
  cases hf : l₁.find? f with
  | none => rw [hf] at h; simp at h
  | some a => simp

/-- After mapping the in-place update `if a.id == ex.id then upd a else a`
over a list whose first `key`-match is `ex`, the first `key`-match of the
result satisfies any property `P` enjoyed by all `upd`-outputs, provided
`upd` cannot turn a match into a non-match. -/
theorem find?_map_update {l : List Activity} {key : Activity → Bool} {ex : Activity}
    {upd : Activity → Activity} {P : Activity → Prop}
    (hkey : ∀ a, key a = true → key (upd a) = true)
    (hP : ∀ a, P (upd a))
    (hfind : l.find? key = some ex) :
    ∃ a', (l.map fun a => if a.id == ex.id then upd a else a).find? key = some a' ∧ P a' := by
  induction l with
  | nil => simp at hfind
  | cons x xs ih =>
    by_cases hx : key x = true
    · rw [List.find?_cons_of_pos _ hx] at hfind
      injection hfind with hex
      subst hex
      refine ⟨upd x, ?_, hP x⟩
      simp only [List.map_cons]
      rw [if_pos (beq_self_eq_true x.id)]
      exact List.find?_cons_of_pos _ (hkey x hx)
    · rw [List.find?_cons_of_neg _ hx] at hfind
      obtain ⟨a', ha', hPa'⟩ := ih hfind
      by_cases hid : (x.id == ex.id) = true
      · by_cases hk2 : key (upd x) = true
        · refine ⟨upd x, ?_, hP x⟩
          simp only [List.map_cons]
          rw [if_pos hid]
          exact List.find?_cons_of_pos _ hk2
        · refine ⟨a', ?_, hPa'⟩
          simp only [List.map_cons]
          rw [if_pos hid]
          rw [List.find?_cons_of_neg _ hk2]
          exact ha'
      · refine ⟨a', ?_, hPa'⟩
        simp only [List.map_cons]
        rw [if_neg hid]
        rw [List.find?_cons_of_neg _ hx]
        exact ha'

/-! ## Claim 1: idempotent ingestion -/

theorem processPushCommit_of_found {uid : Nat} {p : PushPayload} {now : Nat} {st : AppState}
    {c : PushCommit} (h : (st.activities.find? (commitKeyMatches uid c.id)).isSome) :
    processPushCommit uid p now st c = st := by
  unfold processPushCommit
  cases hf : st.activities.find? (commitKeyMatches uid c.id) with
  | none => rw [hf] at h; simp at h
  | some a => rfl

theorem processPushCommit_matches_self (uid : Nat) (p : PushPayload) (now : Nat) (st : AppState)
    (c : PushCommit) :
    (((processPushCommit uid p now st c).activities).find? (commitKeyMatches uid c.id)).isSome := by
  unfold processPushCommit
  cases hf : st.activities.find? (commitKeyMatches uid c.id) with
  | some a => simp [hf]
  | none =>
    simp only [hf]
    rw [find?_append_of_none hf]
    simp [List.find?, commitKeyMatches, mkCommitActivity]

theorem processPushCommit_preserves {uid : Nat} {p : PushPayload} {now : Nat} {st : AppState}
    {c : PushCommit} {k : Activity → Bool} (h : (st.activities.find? k).isSome) :
    (((processPushCommit uid p now st c).activities).find? k).isSome := by
  unfold processPushCommit
  cases hf : st.activities.find? (commitKeyMatches uid c.id) with
  | some a => exact h
  | none => exact find?_isSome_append_left _ h

theorem pushFold_preserves {uid : Nat} {p : PushPayload} {now : Nat} {k : Activity → Bool}
    (cs : List PushCommit) (st : AppState) (h : (st.activities.find? k).isSome) :
    (((cs.foldl (processPushCommit uid p now) st).activities).find? k).isSome := by
  induction cs generalizing st with
  | nil => exact h
  | cons c cs ih => exact ih _ (processPushCommit_preserves h)

theorem pushFold_establishes {uid : Nat} {p : PushPayload} {now : Nat}
    (cs : List PushCommit) (st : AppState) (c : PushCommit) (hc : c ∈ cs) :
    (((cs.foldl (processPushCommit uid p now) st).activities).find?
      (commitKeyMatches uid c.id)).isSome := by
  induction cs generalizing st with
  | nil => cases hc
  | cons d ds ih =>
    rcases List.mem_cons.mp hc with h | h
    · subst h
      exact pushFold_preserves ds _ (processPushCommit_matches_self uid p now st c)
    · exact ih _ h

theorem pushFold_of_all_found {uid : Nat} {p : PushPayload} {now : Nat}
    (cs : List PushCommit) (st : AppState)
    (h : ∀ c ∈ cs, ((st.activities.find? (commitKeyMatches uid c.id))).isSome) :
    cs.foldl (processPushCommit uid p now) st = st := by
  induction cs generalizing st with
  | nil => rfl
  | cons c cs ih =>
    have h1 : processPushCommit uid p now st c = st :=
      processPushCommit_of_found (h c (List.mem_cons_self c cs))
    simp only [List.foldl_cons, h1]
    exact ih st fun d hd => h d (List.mem_cons_of_mem c hd)

theorem handlePushEvent_idem (users : List UserRec) (p : PushPayload) (now now' : Nat)
    (st : AppState) :
    handlePushEvent users p now' (handlePushEvent users p now st) =
      handlePushEvent users p now st := by
  unfold handlePushEvent
  cases hu : findUserByLogin users p.ownerLogin with
  | none => rfl
  | some u =>
    by_cases ht : userHasGithubToken u = true
    · simp only [if_pos ht]
      exact pushFold_of_all_found p.commits _ fun c hc => pushFold_establishes p.commits st c hc
    · simp only [if_neg ht]

theorem prUpsert_of_found {uid : Nat} {p : PullRequestPayload} {now : Nat} {st : AppState}
    {a' : Activity}
    (hfind : st.activities.find? (prKeyMatches uid p.repoFullName p.number) = some a')
    (hstate : a'.meta.state = some p.state)
    (hmerged : a'.meta.merged = some (p.merged.getD false)) :
    prUpsert uid p now st = st := by
  simp only [prUpsert, hfind, hstate, hmerged, beq_self_eq_true, Bool.and_self, Bool.not_true,
    Bool.false_eq_true, if_false]

theorem prUpsert_idem (uid : Nat) (p : PullRequestPayload) (now now' : Nat) (st : AppState) :
    prUpsert uid p now' (prUpsert uid p now st) = prUpsert uid p now st := by
  cases hf : st.activities.find? (prKeyMatches uid p.repoFullName p.number) with
  | none =>
    have h1 : prUpsert uid p now st =
        { st with
          activities := st.activities ++ [mkPrActivity st.nextActivityId uid p now]
          nextActivityId := st.nextActivityId + 1 } := by
      simp only [prUpsert, hf]
    rw [h1]
    have hkey : prKeyMatches uid p.repoFullName p.number
        (mkPrActivity st.nextActivityId uid p now) = true := by
      simp [prKeyMatches, mkPrActivity, prMetadata]
    have hfind2 : ({ st with
          activities := st.activities ++ [mkPrActivity st.nextActivityId uid p now]
          nextActivityId := st.nextActivityId + 1 } : AppState).activities.find?
        (prKeyMatches uid p.repoFullName p.number) =
        some (mkPrActivity st.nextActivityId uid p now) := by
      show (st.activities ++ [mkPrActivity st.nextActivityId uid p now]).find?
          (prKeyMatches uid p.repoFullName p.number) =
        some (mkPrActivity st.nextActivityId uid p now)
      rw [find?_append_of_none hf]
      exact List.find?_cons_of_pos _ hkey
    exact prUpsert_of_found hfind2 rfl rfl
  | some ex =>
    cases hcond : (!(ex.meta.state == some p.state &&
        ex.meta.merged == some (p.merged.getD false))) with
    | true =>
      have h1 : prUpsert uid p now st =
          { st with
            activities := st.activities.map (fun a => if a.id == ex.id then prUpdate p a else a) } := by
        simp only [prUpsert, hf, hcond, if_true]
      rw [h1]
      have hkeyupd : ∀ a : Activity, prKeyMatches uid p.repoFullName p.number a = true →
          prKeyMatches uid p.repoFullName p.number (prUpdate p a) = true := by
        intro a haa
        simp only [prKeyMatches, prUpdate, Bool.and_eq_true] at haa ⊢
        refine ⟨⟨⟨haa.1.1.1, haa.1.1.2⟩, haa.1.2⟩, ?_⟩
        simp [prMetadata]
      have hPupd : ∀ a : Activity,
          (fun x : Activity => x.meta.state = some p.state ∧
            x.meta.merged = some (p.merged.getD false)) (prUpdate p a) := by
        intro a
        exact ⟨rfl, rfl⟩
      obtain ⟨a', ha', hP⟩ :=
        find?_map_update (P := fun x : Activity => x.meta.state = some p.state ∧
          x.meta.merged = some (p.merged.getD false)) hkeyupd hPupd hf
      exact prUpsert_of_found ha' hP.1 hP.2
    | false =>
      have h1 : prUpsert uid p now st = st := by
        simp only [prUpsert, hf, hcond, Bool.false_eq_true, if_false]
      rw [h1]
      simp only [prUpsert, hf, hcond, Bool.false_eq_true, if_false]

theorem handlePullRequestEvent_idem (users : List UserRec) (p : PullRequestPayload)
    (now now' : Nat) (st : AppState) :
    handlePullRequestEvent users p now' (handlePullRequestEvent users p now st) =
      handlePullRequestEvent users p now st := by
  unfold handlePullRequestEvent
  by_cases ha : (!(p.action == "opened" || p.action == "closed" || p.action == "reopened")) = true
  · simp only [if_pos ha]
  · simp only [if_neg ha]
    cases hu : findUserByLogin users p.ownerLogin with
    | none => rfl
    | some u =>
      by_cases ht : (!userHasGithubToken u) = true
      · simp only [if_pos ht]
      · simp only [if_neg ht]
        exact prUpsert_idem u.id p now now' st

theorem issueUpsert_of_found {uid : Nat} {p : IssuePayload} {now : Nat} {st : AppState}
    {a' : Activity}
    (hfind : st.activities.find? (issueKeyMatches uid p.repoFullName p.number) = some a')
    (hstate : a'.meta.state = some p.state) :
    issueUpsert uid p now st = st := by
  simp only [issueUpsert, hfind, hstate, beq_self_eq_true, Bool.not_true,
    Bool.false_eq_true, if_false]

theorem issueUpsert_idem (uid : Nat) (p : IssuePayload) (now now' : Nat) (st : AppState) :
    issueUpsert uid p now' (issueUpsert uid p now st) = issueUpsert uid p now st := by
  cases hf : st.activities.find? (issueKeyMatches uid p.repoFullName p.number) with
  | none =>
    have h1 : issueUpsert uid p now st =
        { st with
          activities := st.activities ++ [mkIssueActivity st.nextActivityId uid p now]
          nextActivityId := st.nextActivityId + 1 } := by
      simp only [issueUpsert, hf]
    rw [h1]
    have hkey : issueKeyMatches uid p.repoFullName p.number
        (mkIssueActivity st.nextActivityId uid p now) = true := by
      simp [issueKeyMatches, mkIssueActivity, issueMetadata]
    have hfind2 : ({ st with
          activities := st.activities ++ [mkIssueActivity st.nextActivityId uid p now]
          nextActivityId := st.nextActivityId + 1 } : AppState).activities.find?
        (issueKeyMatches uid p.repoFullName p.number) =
        some (mkIssueActivity st.nextActivityId uid p now) := by
      show (st.activities ++ [mkIssueActivity st.nextActivityId uid p now]).find?
          (issueKeyMatches uid p.repoFullName p.number) =
        some (mkIssueActivity st.nextActivityId uid p now)
      rw [find?_append_of_none hf]
      exact List.find?_cons_of_pos _ hkey
    exact issueUpsert_of_found hfind2 rfl
  | some ex =>
    cases hcond : (!(ex.meta.state == some p.state)) with
    | true =>
      have h1 : issueUpsert uid p now st =
          { st with
            activities := st.activities.map (fun a => if a.id == ex.id then issueUpdate p a else a) } := by
        simp only [issueUpsert, hf, hcond, if_true]
      rw [h1]
      have hkeyupd : ∀ a : Activity, issueKeyMatches uid p.repoFullName p.number a = true →
          issueKeyMatches uid p.repoFullName p.number (issueUpdate p a) = true := by
        intro a haa
        simp only [issueKeyMatches, issueUpdate, Bool.and_eq_true] at haa ⊢
        refine ⟨⟨⟨haa.1.1.1, haa.1.1.2⟩, haa.1.2⟩, ?_⟩
        simp [issueMetadata]
      have hPupd : ∀ a : Activity,
          (fun x : Activity => x.meta.state = some p.state) (issueUpdate p a) := by
        intro a
        exact rfl
      obtain ⟨a', ha', hP⟩ :=
        find?_map_update (P := fun x : Activity => x.meta.state = some p.state) hkeyupd hPupd hf
      exact issueUpsert_of_found ha' hP
    | false =>
      have h1 : issueUpsert uid p now st = st := by
        simp only [issueUpsert, hf, hcond, Bool.false_eq_true, if_false]
      rw [h1]
      simp only [issueUpsert, hf, hcond, Bool.false_eq_true, if_false]

theorem handleIssueEvent_idem (users : List UserRec) (p : IssuePayload)
    (now now' : Nat) (st : AppState) :
    handleIssueEvent users p now' (handleIssueEvent users p now st) =
      handleIssueEvent users p now st := by
  unfold handleIssueEvent
  by_cases ha : (!(p.action == "opened" || p.action == "closed" || p.action == "reopened")) = true
  · simp only [if_pos ha]
  · simp only [if_neg ha]
    cases hu : findUserByLogin users p.ownerLogin with
    | none => rfl
    | some u =>
      by_cases ht : (!userHasGithubToken u) = true
      · simp only [if_pos ht]
      · simp only [if_neg ht]
        exact issueUpsert_idem u.id p now now' st

theorem releaseUpsert_idem (uid : Nat) (p : ReleasePayload) (now now' : Nat) (st : AppState) :
    releaseUpsert uid p now' (releaseUpsert uid p now st) = releaseUpsert uid p now st := by
  cases hf : st.activities.find? (releaseKeyMatches uid p.repoFullName p.tagName) with
  | some ex =>
    have h1 : releaseUpsert uid p now st = st := by
      simp only [releaseUpsert, hf]
    rw [h1]
    simp only [releaseUpsert, hf]
  | none =>
    have h1 : releaseUpsert uid p now st =
        { st with
          activities := st.activities ++ [mkReleaseActivity st.nextActivityId uid p now]
          nextActivityId := st.nextActivityId + 1 } := by
      simp only [releaseUpsert, hf]
    rw [h1]
    have hkey : releaseKeyMatches uid p.repoFullName p.tagName
        (mkReleaseActivity st.nextActivityId uid p now) = true := by
      simp [releaseKeyMatches, mkReleaseActivity]
    have hfind2 : (st.activities ++ [mkReleaseActivity st.nextActivityId uid p now]).find?
        (releaseKeyMatches uid p.repoFullName p.tagName) =
        some (mkReleaseActivity st.nextActivityId uid p now) := by
      rw [find?_append_of_none hf]
      exact List.find?_cons_of_pos _ hkey
    simp only [releaseUpsert, hfind2]


theorem handleReleaseEvent_idem (users : List UserRec) (p : ReleasePayload)
    (now now' : Nat) (st : AppState) :
    handleReleaseEvent users p now' (handleReleaseEvent users p now st) =
      handleReleaseEvent users p now st := by
  unfold handleReleaseEvent
  by_cases ha : (!(p.action == "published")) = true
  · simp only [if_pos ha]
  · simp only [if_neg ha]
    cases hu : findUserByLogin users p.ownerLogin with
    | none => rfl
    | some u =>
      by_cases ht : (!userHasGithubToken u) = true
      · simp only [if_pos ht]
      · simp only [if_neg ht]
        exact releaseUpsert_idem u.id p now now' st


/-- C1: Ingestion is idempotent. For each of the four webhook event kinds,
re-processing the identical payload (at any later time `now'`) leaves the
store exactly as it was after the first ingestion: the second run creates no
new Activity record — it no-ops (commit with same SHA, release with same tag,
PR/issue with unchanged state/merge flag) and any in-place update it would
re-apply is already in place. -/
theorem claim1_ingestion_idempotent :
    (∀ (users : List UserRec) (p : PushPayload) (now now' : Nat) (st : AppState),
      handlePushEvent users p now' (handlePushEvent users p now st) =
        handlePushEvent users p now st) ∧
    (∀ (users : List UserRec) (p : PullRequestPayload) (now now' : Nat) (st : AppState),
      handlePullRequestEvent users p now' (handlePullRequestEvent users p now st) =
        handlePullRequestEvent users p now st) ∧
    (∀ (users : List UserRec) (p : IssuePayload) (now now' : Nat) (st : AppState),
      handleIssueEvent users p now' (handleIssueEvent users p now st) =
        handleIssueEvent users p now st) ∧
    (∀ (users : List UserRec) (p : ReleasePayload) (now now' : Nat) (st : AppState),
      handleReleaseEvent users p now' (handleReleaseEvent users p now st) =
        handleReleaseEvent users p now st) :=
  ⟨handlePushEvent_idem, handlePullRequestEvent_idem, handleIssueEvent_idem,
    handleReleaseEvent_idem⟩

/-! ## Claim 7: retry policy -/

theorem providerCallLoop_spec (oracle : Nat → Except AIError String) (d : Nat) :
    ∀ r k, (providerCallLoop oracle d k r).delays.length ≤ r ∧
      (providerCallLoop oracle d k r).calls = (providerCallLoop oracle d k r).delays.length + 1 ∧
      (providerCallLoop oracle d k r).delays =
        (List.range (providerCallLoop oracle d k r).delays.length).map (fun i => d * 2 ^ (k + i)) := by
  intro r
  induction r with
  | zero =>
    intro k
    cases ho : oracle k with
    | ok t => simp [providerCallLoop, ho]
    | error e => simp [providerCallLoop, ho]
  | succ r ih =>
    intro k
    cases ho : oracle k with
    | ok t => simp [providerCallLoop, ho]
    | error e =>
      cases hre : isRetryableError e with
      | false => simp [providerCallLoop, ho, hre]
      | true =>
        obtain ⟨ih1, ih2, ih3⟩ := ih (k + 1)
        simp only [providerCallLoop, ho, hre, if_true]
        refine ⟨by simpa using Nat.succ_le_succ ih1, by simp [ih2], ?_⟩
        simp only [List.length_cons, List.range_succ_eq_map, List.map_cons, List.map_map]
        refine List.cons_eq_cons.mpr ⟨by rw [Nat.add_zero], ?_⟩
        rw [ih3]
        simp only [List.length_map, List.length_range]
        refine List.map_congr_left ?_
        intro i _
        simp only [Function.comp_apply]
        congr 2
        omega

theorem providerCallLoop_nonretryable (oracle : Nat → Except AIError String) (d : Nat)
    (r : Nat) (e : AIError) (ho : oracle 0 = .error e) (hre : isRetryableError e = false) :
    providerCallLoop oracle d 0 r = { result := .error e, calls := 1, delays := [] } := by
  cases r with
  | zero => simp [providerCallLoop, ho]
  | succ r => simp [providerCallLoop, ho, hre]

theorem generateWithRetryLoop_calls_le (oracle : Nat → Except AIError (Option String))
    (avail : Bool) (d : Nat) : ∀ r k, (generateWithRetryLoop oracle avail d k r).calls ≤ r := by
  intro r
  induction r with
  | zero => intro k; exact Nat.le_refl 0
  | succ r ih =>
    intro k
    cases havail : avail with
    | false => simp [generateWithRetryLoop, havail]
    | true =>
      cases ho : oracle k with
      | ok t => simp [generateWithRetryLoop, havail, ho]
      | error e =>
        rw [havail] at ih
        simp only [generateWithRetryLoop, havail, ho, if_true]
        exact Nat.succ_le_succ (ih (k + 1))

theorem generateWithRetryLoop_result_none (oracle : Nat → Except AIError (Option String))
    (d : Nat) (hfail : ∀ n, ∃ err, oracle n = .error err) :
    ∀ r k, (generateWithRetryLoop oracle true d k r).result = none := by
  intro r
  induction r with
  | zero => intro k; rfl
  | succ r ih =>
    intro k
    obtain ⟨err, herr⟩ := hfail k
    simp only [generateWithRetryLoop, herr, if_true]
    exact ih (k + 1)

/-- C7 (amended): the `callOpenAI`/`callAnthropic` retry loop retries at most
`maxRetries` (default 3) times, the k-th backoff delay is
`retryDelay * 2^k` (attempts counted from 0), and a non-retryable first
failure propagates immediately with exactly one provider call and no retry.
The `generateWithRetry` path, by contrast, is bounded by `maxRetries` TOTAL
calls but retries every error — retryable or not — and returns null instead
of propagating when all its attempts fail. -/
theorem claim7_retry_policy_amended :
    (∀ (oracle : Nat → Except AIError String) (mR d : Nat),
      (providerCallRetry oracle mR d).delays.length ≤ mR ∧
      (providerCallRetry oracle mR d).calls = (providerCallRetry oracle mR d).delays.length + 1 ∧
      (providerCallRetry oracle mR d).delays =
        (List.range (providerCallRetry oracle mR d).delays.length).map (fun i => d * 2 ^ i)) ∧
    (∀ (oracle : Nat → Except AIError String) (mR d : Nat) (e : AIError),
      oracle 0 = .error e → isRetryableError e = false →
      providerCallRetry oracle mR d = { result := .error e, calls := 1, delays := [] }) ∧
    (∀ (oracle : Nat → Except AIError (Option String)) (avail : Bool) (mR d : Nat),
      (generateWithRetry oracle avail mR d).calls ≤ mR) ∧
    (∀ (oracle : Nat → Except AIError (Option String)) (mR d : Nat),
      (∀ n, ∃ err, oracle n = .error err) →
      (generateWithRetry oracle true mR d).result = none) := by
  refine ⟨?_, ?_, ?_, ?_⟩
  · intro oracle mR d
    obtain ⟨h1, h2, h3⟩ := providerCallLoop_spec oracle d mR 0
    refine ⟨h1, h2, ?_⟩
    simp only [providerCallRetry] at h3 ⊢
    rw [h3]
    simp only [List.length_map, List.length_range]
    exact List.map_congr_left fun i _ => by rw [Nat.zero_add]
  · intro oracle mR d e ho hre
    exact providerCallLoop_nonretryable oracle d mR e ho hre
  · intro oracle avail mR d
    exact generateWithRetryLoop_calls_le oracle avail d mR 0
  · intro oracle mR d hfail
    exact generateWithRetryLoop_result_none oracle d hfail mR 0

/-- Witness for the amended C7 theorem at concrete inputs: an HTTP 401 error
(non-retryable) makes `callAnthropic` propagate after exactly one call, while
`generateWithRetry` under the same always-failing oracle returns null. -/
theorem claim7_retry_policy_amended_witness :
    providerCallRetry (fun _ => Except.error { status := some 401 }) 3 1000 =
      { result := Except.error { status := some 401 }, calls := 1, delays := [] } ∧
    (generateWithRetry (fun _ => Except.error { status := some 401 }) true 3 1000).result =
      none := by
  have h := claim7_retry_policy_amended
  exact ⟨h.2.1 _ 3 1000 _ rfl rfl, h.2.2.2 _ 3 1000 (fun n => ⟨_, rfl⟩)⟩

/-- C7 counterexample: the claim asserts that a non-retryable failure (here
HTTP 401, an auth failure) "propagates immediately without any retry" on
every AI provider call path. On the `generateWithRetry` path it does not: the
same non-retryable error is tried 3 times with backoff sleeps 1000, 2000,
4000 ms, and the failure is swallowed (null is returned, nothing propagates). -/
theorem claim7_counterexample :
    isRetryableError { status := some 401 } = false ∧
    (generateWithRetry (fun _ => Except.error { status := some 401 }) true 3 1000).calls = 3 ∧
    (generateWithRetry (fun _ => Except.error { status := some 401 }) true 3 1000).result = none ∧
    (generateWithRetry (fun _ => Except.error { status := some 401 }) true 3 1000).delays =
      [1000, 2000, 4000] :=
  ⟨rfl, rfl, rfl, rfl⟩

/-! ## Claim 10: empty-input edge case of generateContent -/

/-- C10: with zero unprocessed activities for the user, `generateContent`
returns null, creates no Content, and mutates nothing. -/
theorem claim10_generateContent_empty (users : List UserRec) (cfg : GenConfig)
    (oracle : Nat → Except AIError String) (userId : Nat) (st : AppState) (now : Nat)
    (h : st.activities.filter (unprocessedFilter userId) = []) :
    generateContent users cfg oracle userId st now = (none, st) := by
  unfold generateContent
  rw [h]
  rfl

/-- Witness for C10 at a concrete state: one activity exists but it belongs
to another user, so the filter is empty and generation no-ops. -/
theorem claim10_generateContent_empty_witness :
    generateContent [] {} (fun _ => Except.error {}) 1
      { activities := [{ id := 4, user := some 2, processed := some false }] } 0 =
      (none, { activities := [{ id := 4, user := some 2, processed := some false }] }) :=
  claim10_generateContent_empty [] {} (fun _ => Except.error {}) 1 _ 0 (by decide)

/-! ## Claim 2: fallback guarantee -/

theorem providerCallLoop_error (oracle : Nat → Except AIError String) (d : Nat)
    (hfail : ∀ n, ∃ e, oracle n = Except.error e) :
    ∀ r k, ∃ e, (providerCallLoop oracle d k r).result = Except.error e := by
  intro r
  induction r with
  | zero =>
    intro k
    obtain ⟨e, he⟩ := hfail k
    exact ⟨e, by simp [providerCallLoop, he]⟩
  | succ r ih =>
    intro k
    obtain ⟨e, he⟩ := hfail k
    cases hre : isRetryableError e with
    | false => exact ⟨e, by simp [providerCallLoop, he, hre]⟩
    | true =>
      obtain ⟨e', he'⟩ := ih (k + 1)
      exact ⟨e', by simp [providerCallLoop, he, hre, he']⟩

theorem generateTextWithAI_error (provider : String) (cfg : GenConfig)
    (oracle : Nat → Except AIError String)
    (hfail : ∀ n, ∃ e, oracle n = Except.error e) :
    ∃ e, generateTextWithAI provider cfg oracle = Except.error e := by
  unfold generateTextWithAI
  by_cases h1 : (provider == "openai" && cfg.openaiConfigured) = true
  · rw [if_pos h1]
    simpa [providerCallRetry] using
      providerCallLoop_error oracle cfg.retryDelay hfail cfg.maxRetries 0
  · rw [if_neg h1]
    by_cases h2 : (provider == "anthropic" && cfg.anthropicConfigured) = true
    · rw [if_pos h2]
      simpa [providerCallRetry] using
        providerCallLoop_error oracle cfg.retryDelay hfail cfg.maxRetries 0
    · rw [if_neg h2]
      exact ⟨_, rfl⟩

theorem finishGeneration_fst (c : ContentRec) (activities : List Activity) (st : AppState)
    (now : Nat) : (finishGeneration c activities st now).1 = c := rfl

theorem finishGeneration_mem (c : ContentRec) (activities : List Activity) (st : AppState)
    (now : Nat) : c ∈ (finishGeneration c activities st now).2.contents := by
  cases h : activities.isEmpty <;> simp [finishGeneration, h]

theorem markActivitiesProcessed_status {ids : List Nat} {now : Nat} {acts : List Activity}
    (a : Activity) (ha : a ∈ markActivitiesProcessed ids now acts) (hid : a.id ∈ ids) :
    a.status = .processed := by
  unfold markActivitiesProcessed at ha
  rcases List.mem_map.mp ha with ⟨a₀, _, heq⟩
  by_cases hc : ids.contains a₀.id = true
  · rw [if_pos hc] at heq
    rw [← heq]
  · rw [if_neg hc] at heq
    subst heq
    exact absurd hid (by simpa using hc)

theorem finishGeneration_processed (c : ContentRec) (activities : List Activity) (st : AppState)
    (now : Nat) (hne : activities ≠ []) (a : Activity)
    (ha : a ∈ (finishGeneration c activities st now).2.activities)
    (hid : a.id ∈ activities.map (fun x => x.id)) : a.status = .processed := by
  have hne' : activities.isEmpty = false := by
    cases activities with
    | nil => exact absurd rfl hne
    | cons x xs => rfl
  simp only [finishGeneration, hne', Bool.false_eq_true, if_false] at ha
  exact markActivitiesProcessed_status a ha hid

/-- C2: the fallback guarantee. If every AI provider attempt fails, the
repository-level generation still produces a Content record: it is returned
(non-null), has status `pending`, carries `generatedByFallback = true` in its
metadata, its text is exactly the deterministic fallback template, it is
persisted, and every consumed Activity is marked `processed`. -/
theorem claim2_fallback_guarantee (users : List UserRec) (cfg : GenConfig)
    (oracle : Nat → Except AIError String) (userId : Nat) (repository : String)
    (activities : List Activity) (st : AppState) (now : Nat)
    (hne : activities ≠ [])
    (hfail : ∀ n, ∃ e, oracle n = Except.error e) :
    (generateContentForRepository users cfg oracle userId repository activities st now).1.status =
      ContentStatus.pending ∧
    (generateContentForRepository users cfg oracle userId repository activities
      st now).1.metadata.generatedByFallback = some true ∧
    (generateContentForRepository users cfg oracle userId repository activities st now).1.text =
      generateFallbackContent repository activities ∧
    (generateContentForRepository users cfg oracle userId repository activities st now).1 ∈
      (generateContentForRepository users cfg oracle userId repository activities
        st now).2.contents ∧
    (∀ a ∈ (generateContentForRepository users cfg oracle userId repository activities
        st now).2.activities,
      a.id ∈ activities.map (fun x => x.id) → a.status = ActivityStatus.processed) := by
  have hgen : ∃ msg, generateContentForRepository users cfg oracle userId repository activities
      st now =
      finishGeneration (fallbackContentRecord userId repository activities msg st.nextContentId)
        activities st now := by
    unfold generateContentForRepository
    cases hu : users.find? (fun u => u.id == userId) with
    | none => exact ⟨"User not found", rfl⟩
    | some user =>
      obtain ⟨e, he⟩ := generateTextWithAI_error (effectiveProvider cfg user) cfg oracle hfail
      dsimp only
      rw [he]
      exact ⟨e.message, rfl⟩
  obtain ⟨msg, hmsg⟩ := hgen
  rw [hmsg]
  refine ⟨rfl, rfl, rfl, finishGeneration_mem _ _ _ _, ?_⟩
  intro a ha hid
  exact finishGeneration_processed _ _ _ _ hne a ha hid

/-- Witness for C2 at a concrete input: one commit activity, an oracle that
always throws, an empty user table — the fallback Content is produced as
described. -/
theorem claim2_fallback_guarantee_witness :
    (generateContentForRepository [] {} (fun _ => Except.error { message := "boom" }) 1
        "alice/proj" [{ id := 10, type := "commit", title := "Add parser" }]
        { activities := [{ id := 10, type := "commit", title := "Add parser" }] } 7).1.status =
      ContentStatus.pending ∧
    (generateContentForRepository [] {} (fun _ => Except.error { message := "boom" }) 1
        "alice/proj" [{ id := 10, type := "commit", title := "Add parser" }]
        { activities := [{ id := 10, type := "commit", title := "Add parser" }] }
        7).1.metadata.generatedByFallback = some true ∧
    (generateContentForRepository [] {} (fun _ => Except.error { message := "boom" }) 1
        "alice/proj" [{ id := 10, type := "commit", title := "Add parser" }]
        { activities := [{ id := 10, type := "commit", title := "Add parser" }] } 7).1.text =
      generateFallbackContent "alice/proj" [{ id := 10, type := "commit", title := "Add parser" }] ∧
    (generateContentForRepository [] {} (fun _ => Except.error { message := "boom" }) 1
        "alice/proj" [{ id := 10, type := "commit", title := "Add parser" }]
        { activities := [{ id := 10, type := "commit", title := "Add parser" }] } 7).1 ∈
      (generateContentForRepository [] {} (fun _ => Except.error { message := "boom" }) 1
        "alice/proj" [{ id := 10, type := "commit", title := "Add parser" }]
        { activities := [{ id := 10, type := "commit", title := "Add parser" }] } 7).2.contents := by
  have h := claim2_fallback_guarantee [] {} (fun _ => Except.error { message := "boom" }) 1
    "alice/proj" [{ id := 10, type := "commit", title := "Add parser" }]
    { activities := [{ id := 10, type := "commit", title := "Add parser" }] } 7
    (by decide) (fun n => ⟨{ message := "boom" }, rfl⟩)
  exact ⟨h.1, h.2.1, h.2.2.1, h.2.2.2.1⟩

/-! ## Claims 3-5: authorization boundary, edit semantics, reject cascade -/

/-- C3 counterexample: content 5 is owned by user 1 and starts `pending`;
acting user 2 is NOT the owner, yet `approveContent` returns the success
message and the stored copy is mutated to `approved` with
`approvedBy = 2` — the ownership check in the later-variant approve is
commented out in the source ("For now, all users can approve content"). -/
theorem claim3_counterexample :
    ({ id := 5, user := 1, text := "hi" } : ContentRec).user ≠ 2 ∧
    ({ id := 5, user := 1, text := "hi" } : ContentRec).status = ContentStatus.pending ∧
    (approveContent [{ id := 1, telegramChatId := some "10" },
        { id := 2, telegramChatId := some "20" }]
      { contents := [{ id := 5, user := 1, text := "hi" }] } 5 2 100).1 =
      "Content approved successfully" ∧
    ((approveContent [{ id := 1, telegramChatId := some "10" },
        { id := 2, telegramChatId := some "20" }]
      { contents := [{ id := 5, user := 1, text := "hi" }] } 5 2 100).2.contents.find?
        (fun c => c.id == 5)).map (fun c => (c.status, c.metadata.approvedBy)) =
      some (ContentStatus.approved, some 2) :=
  ⟨by decide, rfl, rfl, rfl⟩

/-- C3 (amended): `rejectContent` and `editContent` enforce ownership —
called with a chat identity that does not own the Content they fail with the
Unauthorized error and return the store untouched; `approveContent`, however,
performs no ownership check at all in the later variant: for any existing
acting user, owner or not, it replies with the success message and mutates
the Content to `approved`, stamping that user into `metadata.approvedBy`. -/
theorem claim3_authorization_amended (users : List UserRec) (st : AppState)
    (cid chatId now uid : Nat) (newText : String) (content : ContentRec)
    (hfind : st.contents.find? (fun c => c.id == cid) = some content)
    (hauth : contentOwnerAuth users content chatId = none)
    (huser : (users.find? (fun u => u.id == uid)).isSome) :
    rejectContent users st cid chatId now = (CmdResult.unauthorized, st) ∧
    editContent users st cid newText chatId = (CmdResult.unauthorized, st) ∧
    (approveContent users st cid uid now).1 = "Content approved successfully" ∧
    (∀ c ∈ (approveContent users st cid uid now).2.contents, c.id = cid →
      c.status = ContentStatus.approved ∧ c.metadata.approvedBy = some uid) := by
  refine ⟨?_, ?_, ?_, ?_⟩
  · unfold rejectContent
    rw [hfind]
    dsimp only
    rw [hauth]
  · unfold editContent
    rw [hfind]
    dsimp only
    rw [hauth]
  · unfold approveContent
    rw [hfind]
    dsimp only
    cases hu : users.find? (fun u => u.id == uid) with
    | none => rw [hu] at huser; simp at huser
    | some user => rfl
  · intro c hc hcid2
    cases hfu : users.find? (fun u => u.id == uid) with
    | none => rw [hfu] at huser; simp at huser
    | some user =>
    have hcontentid : (content.id == cid) = true := by
      simpa using List.find?_some hfind
    unfold approveContent at hc
    rw [hfind] at hc
    dsimp only at hc
    rw [hfu] at hc
    dsimp only at hc
    unfold saveApprovedTweetModel at hc
    by_cases hcred : user.hasTwitterCreds = true
    · rw [if_pos hcred] at hc
      rcases List.mem_map.mp hc with ⟨c₁, hc₁, heq₁⟩
      rcases List.mem_map.mp hc₁ with ⟨c₀, _, heq₀⟩
      by_cases hx : (c₀.id == cid) = true
      · rw [if_pos hx] at heq₀
        rw [← heq₀] at heq₁
        rw [if_pos hcontentid] at heq₁
        rw [← heq₁]
        exact ⟨rfl, rfl⟩
      · rw [if_neg hx] at heq₀
        subst heq₀
        by_cases hx1 : (c₀.id == cid) = true
        · exact absurd hx1 hx
        · rw [if_neg hx1] at heq₁
          subst heq₁
          exact absurd (by simpa using hcid2) hx
    · rw [if_neg hcred] at hc
      rcases List.mem_map.mp hc with ⟨c₀, _, heq₀⟩
      by_cases hx : (c₀.id == cid) = true
      · rw [if_pos hx] at heq₀
        rw [← heq₀]
        exact ⟨rfl, rfl⟩
      · rw [if_neg hx] at heq₀
        subst heq₀
        exact absurd (by simpa using hcid2) hx

/-- Witness for the amended C3 at a concrete store: chat 20 (user 2) neither
rejects nor edits user 1's content, while approve succeeds for user 2 and
the stored copy ends up `approved` with `approvedBy = 2`. -/
theorem claim3_authorization_amended_witness :
    rejectContent [{ id := 1, telegramChatId := some "10" },
        { id := 2, telegramChatId := some "20" }]
      { contents := [{ id := 6, user := 1, text := "hi" }] } 6 20 50 =
      (CmdResult.unauthorized,
        { contents := [{ id := 6, user := 1, text := "hi" }] }) ∧
    editContent [{ id := 1, telegramChatId := some "10" },
        { id := 2, telegramChatId := some "20" }]
      { contents := [{ id := 6, user := 1, text := "hi" }] } 6 "x" 20 =
      (CmdResult.unauthorized,
        { contents := [{ id := 6, user := 1, text := "hi" }] }) ∧
    (approveContent [{ id := 1, telegramChatId := some "10" },
        { id := 2, telegramChatId := some "20" }]
      { contents := [{ id := 6, user := 1, text := "hi" }] } 6 2 50).1 =
      "Content approved successfully" ∧
    (({ id := 6, user := 1, text := "hi", status := ContentStatus.approved,
        metadata := { approvedBy := some 2, approvedAt := some 50 } } : ContentRec).status =
      ContentStatus.approved ∧
     ({ id := 6, user := 1, text := "hi", status := ContentStatus.approved,
        metadata := { approvedBy := some 2, approvedAt := some 50 } } :
          ContentRec).metadata.approvedBy = some 2) := by
  have h := claim3_authorization_amended [{ id := 1, telegramChatId := some "10" },
      { id := 2, telegramChatId := some "20" }]
    { contents := [{ id := 6, user := 1, text := "hi" }] } 6 20 50 2 "x"
    { id := 6, user := 1, text := "hi" } rfl rfl rfl
  exact ⟨h.1, h.2.1, h.2.2.1, h.2.2.2 _ (by decide) rfl⟩

/-- C4 counterexample: the earlier-variant edit ("Edit and approve content"),
called by the owner, sets the status to `edited` — not `pending` — and
`edited` content passes the scheduler's postable filter, so the edited draft
is published without any subsequent approve. -/
theorem claim4_counterexample :
    (legacyEditContent [{ id := 1, legacyTelegramChatId := some "99" }]
      { contents := [{ id := 5, user := 1, text := "old" }] } 5 "new text" 99).1 =
      CmdResult.ok ∧
    ((legacyEditContent [{ id := 1, legacyTelegramChatId := some "99" }]
      { contents := [{ id := 5, user := 1, text := "old" }] } 5 "new text" 99).2.contents.find?
        (fun c => c.id == 5)).map (fun c => (c.status, c.text, schedulerPostableFilter c)) =
      some (ContentStatus.edited, "new text", true) :=
  ⟨rfl, rfl⟩

/-- C4 (amended): the later-variant `editContent` overwrites the text and
returns the status to `pending`, which the scheduler's filter does not post;
the earlier variant instead sets `edited`, which the scheduler posts without
a subsequent approve. -/
theorem claim4_edit_amended (users : List UserRec) (st : AppState) (cid chatId : Nat)
    (newText : String) (content : ContentRec)
    (hfind : st.contents.find? (fun c => c.id == cid) = some content)
    (hauth : (contentOwnerAuth users content chatId).isSome)
    (hauthLegacy : (legacyContentOwnerAuth users content chatId).isSome) :
    (editContent users st cid newText chatId).1 = CmdResult.ok ∧
    (∀ c ∈ (editContent users st cid newText chatId).2.contents, c.id = cid →
      c.status = ContentStatus.pending ∧ c.text = newText ∧ schedulerPostableFilter c = false) ∧
    (legacyEditContent users st cid newText chatId).1 = CmdResult.ok ∧
    (∀ c ∈ (legacyEditContent users st cid newText chatId).2.contents, c.id = cid →
      c.status = ContentStatus.edited ∧ c.text = newText ∧
        (c.postedAt = none → schedulerPostableFilter c = true)) := by
  cases hown : contentOwnerAuth users content chatId with
  | none => rw [hown] at hauth; simp at hauth
  | some u =>
  cases hownL : legacyContentOwnerAuth users content chatId with
  | none => rw [hownL] at hauthLegacy; simp at hauthLegacy
  | some uL =>
  have hedit : editContent users st cid newText chatId =
      (CmdResult.ok, { st with contents := st.contents.map fun c =>
        if c.id == cid then { c with text := newText, status := .pending } else c }) := by
    unfold editContent
    rw [hfind]
    dsimp only
    rw [hown]
  have heditL : legacyEditContent users st cid newText chatId =
      (CmdResult.ok, { st with contents := st.contents.map fun c =>
        if c.id == cid then { c with text := newText, status := .edited } else c }) := by
    unfold legacyEditContent
    rw [hfind]
    dsimp only
    rw [hownL]
  rw [hedit, heditL]
  refine ⟨rfl, ?_, rfl, ?_⟩
  · intro c hc hcid
    rcases List.mem_map.mp hc with ⟨c₀, _, heq⟩
    by_cases hx : (c₀.id == cid) = true
    · rw [if_pos hx] at heq
      rw [← heq]
      exact ⟨rfl, rfl, rfl⟩
    · rw [if_neg hx] at heq
      subst heq
      exact absurd (by simpa using hcid) hx
  · intro c hc hcid
    rcases List.mem_map.mp hc with ⟨c₀, _, heq⟩
    by_cases hx : (c₀.id == cid) = true
    · rw [if_pos hx] at heq
      rw [← heq]
      refine ⟨rfl, rfl, ?_⟩
      intro hpost
      simp only [← heq] at hpost
      simp [schedulerPostableFilter, hpost]
    · rw [if_neg hx] at heq
      subst heq
      exact absurd (by simpa using hcid) hx

/-- Witness for the amended C4 at a concrete store: the owner edits via both
variants; the later variant leaves a pending, non-postable draft, the legacy
variant an edited, postable one. -/
theorem claim4_edit_amended_witness :
    (editContent [{ id := 1, telegramChatId := some "77", legacyTelegramChatId := some "77" }]
      { contents := [{ id := 9, user := 1, text := "old" }] } 9 "brand new" 77).1 =
      CmdResult.ok ∧
    (legacyEditContent
      [{ id := 1, telegramChatId := some "77", legacyTelegramChatId := some "77" }]
      { contents := [{ id := 9, user := 1, text := "old" }] } 9 "brand new" 77).1 =
      CmdResult.ok := by
  have h := claim4_edit_amended
    [{ id := 1, telegramChatId := some "77", legacyTelegramChatId := some "77" }]
    { contents := [{ id := 9, user := 1, text := "old" }] } 9 77 "brand new"
    { id := 9, user := 1, text := "old" } rfl rfl rfl
  exact ⟨h.1, h.2.2.1⟩

theorem otherApprovedExists_map_reject (contents : List ContentRec) (cid aid : Nat) :
    otherApprovedExists
      (contents.map fun c => if c.id == cid then { c with status := .rejected } else c) cid aid =
      otherApprovedExists contents cid aid := by
  unfold otherApprovedExists
  induction contents with
  | nil => rfl
  | cons x xs ih =>
    simp only [List.map_cons, List.any_cons, ih]
    by_cases hx : (x.id == cid) = true
    · rw [if_pos hx]
      have h1 : (x.id != cid) = false := by simp [bne, hx]
      have h2 : ((({ x with status := ContentStatus.rejected } : ContentRec)).id != cid) =
          false := by simp [bne, hx]
      simp [h1, h2]
    · rw [if_neg hx]

/-- C5: the reject cascade. When the owner rejects a Content, the command
succeeds, every stored copy of that Content becomes `rejected`, and each
Activity the Content references reverts to `processed` (stamped with the
rejection time) exactly when no OTHER Content referencing it is approved or
posted; all other activities are untouched. -/
theorem claim5_reject_cascade (users : List UserRec) (st : AppState) (cid chatId now : Nat)
    (content : ContentRec)
    (hfind : st.contents.find? (fun c => c.id == cid) = some content)
    (hauth : (contentOwnerAuth users content chatId).isSome) :
    (rejectContent users st cid chatId now).1 = CmdResult.ok ∧
    (∀ c ∈ (rejectContent users st cid chatId now).2.contents, c.id = cid →
      c.status = ContentStatus.rejected) ∧
    (rejectContent users st cid chatId now).2.activities =
      st.activities.map (fun a =>
        if content.relatedActivities.contains a.id && !otherApprovedExists st.contents cid a.id
        then { a with status := .processed, processedAt := some now }
        else a) := by
  cases hown : contentOwnerAuth users content chatId with
  | none => rw [hown] at hauth; simp at hauth
  | some u =>
  have hrej : rejectContent users st cid chatId now =
      (CmdResult.ok,
        { st with
          contents := st.contents.map fun c =>
            if c.id == cid then { c with status := .rejected } else c
          activities := st.activities.map fun a =>
            if content.relatedActivities.contains a.id &&
                !otherApprovedExists
                  (st.contents.map fun c =>
                    if c.id == cid then { c with status := .rejected } else c) cid a.id
            then { a with status := .processed, processedAt := some now }
            else a }) := by
    unfold rejectContent
    rw [hfind]
    dsimp only
    rw [hown]
  rw [hrej]
  refine ⟨rfl, ?_, ?_⟩
  · intro c hc hcid
    rcases List.mem_map.mp hc with ⟨c₀, _, heq⟩
    by_cases hx : (c₀.id == cid) = true
    · rw [if_pos hx] at heq
      rw [← heq]
    · rw [if_neg hx] at heq
      subst heq
      exact absurd (by simpa using hcid) hx
  · simp only [otherApprovedExists_map_reject]

/-- Witness for C5: the spec's example scenario 5 — reject a Content that
references activities 10 and 11 with no other Content referencing them; the
cascade reverts both to `processed`. -/
theorem claim5_reject_cascade_witness :
    (rejectContent [{ id := 1, telegramChatId := some "10" }]
      { activities := [{ id := 10, status := .published }, { id := 11, status := .published }]
        contents := [{ id := 5, user := 1, text := "hi", relatedActivities := [10, 11] }] }
      5 10 42).1 = CmdResult.ok ∧
    (rejectContent [{ id := 1, telegramChatId := some "10" }]
      { activities := [{ id := 10, status := .published }, { id := 11, status := .published }]
        contents := [{ id := 5, user := 1, text := "hi", relatedActivities := [10, 11] }] }
      5 10 42).2.activities =
      [{ id := 10, status := .processed, processedAt := some 42 },
       { id := 11, status := .processed, processedAt := some 42 }] := by
  have h := claim5_reject_cascade [{ id := 1, telegramChatId := some "10" }]
    { activities := [{ id := 10, status := .published }, { id := 11, status := .published }]
      contents := [{ id := 5, user := 1, text := "hi", relatedActivities := [10, 11] }] }
    5 10 42 { id := 5, user := 1, text := "hi", relatedActivities := [10, 11] } rfl (by decide)
  exact ⟨h.1, by rw [h.2.2]; rfl⟩

/-! ## Claim 6: length contract -/

set_option maxRecDepth 4000 in
/-- C6 counterexample: a pending Content whose text is 300 characters long is
approved unchanged — `approveContent` performs no length check, so the
300-character text reaches `approved` even though the twitter limit is 280. -/
theorem claim6_counterexample :
    ((approveContent [{ id := 1, telegramChatId := some "10" }]
      { contents := [{ id := 5, user := 1, text := String.mk (List.replicate 300 'a') }] }
      5 1 0).2.contents.find? (fun c => c.id == 5)).map
      (fun c => (c.status, c.text.length)) = some (ContentStatus.approved, 300) ∧
    280 < 300 :=
  ⟨rfl, by decide⟩

/-- C6 (amended): only the per-activity generation path enforces the
280-character limit — a non-empty AI completion is trimmed and truncated to
at most 280 characters. Approval itself performs no length check or rewrite:
the text of an approved Content is exactly the text it had before approval. -/
theorem claim6_length_amended :
    (∀ (r : String) (a : Activity), r ≠ "" →
      (generateTweetFromActivity (some r) a).length ≤ 280) ∧
    (∀ (users : List UserRec) (st : AppState) (cid uid now : Nat) (content : ContentRec),
      st.contents.find? (fun c => c.id == cid) = some content →
      (users.find? (fun u => u.id == uid)).isSome →
      ∀ c ∈ (approveContent users st cid uid now).2.contents, c.id = cid →
        c.text = content.text) := by
  constructor
  · intro r a hr
    have hne : (r == "") = false := by simp [hr]
    show (if (r == "") = true then generateFallbackTweetForActivity a
      else if 280 < r.trim.length then strTake r.trim 277 ++ "..." else r.trim).length ≤ 280
    rw [hne]
    simp only [Bool.false_eq_true, if_false]
    by_cases hlen : 280 < r.trim.length
    · rw [if_pos hlen]
      rw [String.length_append]
      have h1 : (strTake r.trim 277).length = min 277 r.trim.length := by
        simpa [strTake] using List.length_take 277 r.trim.data
      have h2 : ("..." : String).length = 3 := rfl
      have h3 : min 277 r.trim.length ≤ 277 := Nat.min_le_left _ _
      omega
    · rw [if_neg hlen]
      omega
  · intro users st cid uid now content hfind huser c hc hcid
    cases hfu : users.find? (fun u => u.id == uid) with
    | none => rw [hfu] at huser; simp at huser
    | some user =>
    have hcontentid : (content.id == cid) = true := by
      simpa using List.find?_some hfind
    unfold approveContent at hc
    rw [hfind] at hc
    dsimp only at hc
    rw [hfu] at hc
    dsimp only at hc
    unfold saveApprovedTweetModel at hc
    by_cases hcred : user.hasTwitterCreds = true
    · rw [if_pos hcred] at hc
      rcases List.mem_map.mp hc with ⟨c₁, hc₁, heq₁⟩
      rcases List.mem_map.mp hc₁ with ⟨c₀, _, heq₀⟩
      by_cases hx : (c₀.id == cid) = true
      · rw [if_pos hx] at heq₀
        rw [← heq₀] at heq₁
        rw [if_pos hcontentid] at heq₁
        rw [← heq₁]
      · rw [if_neg hx] at heq₀
        subst heq₀
        by_cases hx1 : (c₀.id == cid) = true
        · exact absurd hx1 hx
        · rw [if_neg hx1] at heq₁
          subst heq₁
          exact absurd (by simpa using hcid) hx
    · rw [if_neg hcred] at hc
      rcases List.mem_map.mp hc with ⟨c₀, _, heq₀⟩
      by_cases hx : (c₀.id == cid) = true
      · rw [if_pos hx] at heq₀
        rw [← heq₀]
      · rw [if_neg hx] at heq₀
        subst heq₀
        exact absurd (by simpa using hcid) hx

/-- Witness for the amended C6: a 300-character completion is cut to 280, and
approving a concrete 9-character draft leaves its text untouched. -/
theorem claim6_length_amended_witness :
    (generateTweetFromActivity (some (String.mk (List.replicate 300 'b')))
      { id := 0 }).length ≤ 280 ∧
    ({ id := 5, user := 1, text := "short one", status := ContentStatus.approved,
        metadata := { approvedBy := some 1, approvedAt := some 0 } } : ContentRec).text =
      ({ id := 5, user := 1, text := "short one" } : ContentRec).text := by
  have h := claim6_length_amended
  refine ⟨h.1 (String.mk (List.replicate 300 'b')) { id := 0 } (by decide), ?_⟩
  exact h.2 [{ id := 1, telegramChatId := some "10" }]
    { contents := [{ id := 5, user := 1, text := "short one" }] } 5 1 0
    { id := 5, user := 1, text := "short one" } rfl (by decide)
    { id := 5, user := 1, text := "short one", status := ContentStatus.approved,
      metadata := { approvedBy := some 1, approvedAt := some 0 } }
    (by decide) rfl

/-! ## Claims 8-9: approval idempotency and activity publication timing -/

/-- The Content record as mutated by `approveContent`: status `approved` plus
`approvedBy`/`approvedAt` stamped into the metadata. -/
def approvedContentRecord (content : ContentRec) (uid t : Nat) : ContentRec :=
  { content with
    status := ContentStatus.approved
    metadata := { content.metadata with approvedBy := some uid, approvedAt := some t } }

/-- The approved record after the (spec-modelled) `saveApprovedTweet` also
stamped `scheduledFor`. -/
def approvedScheduledContentRecord (content : ContentRec) (uid t : Nat) : ContentRec :=
  { approvedContentRecord content uid t with scheduledFor := some t }

/-- Evaluation of `approveContent` when the content and the acting user both
exist: the success message, the per-content update (with `saveApprovedTweet`
applied when the user has Twitter credentials), and every related Activity
stamped `published`. -/
theorem approveContent_eq (users : List UserRec) (st : AppState) (cid uid t : Nat)
    (content : ContentRec) (user : UserRec)
    (hfc : st.contents.find? (fun c => c.id == cid) = some content)
    (hfu : users.find? (fun u => u.id == uid) = some user) :
    approveContent users st cid uid t = ("Content approved successfully",
      { st with
        contents :=
          if user.hasTwitterCreds then
            saveApprovedTweetModel
              (st.contents.map fun c =>
                if c.id == cid then approvedContentRecord content uid t else c) cid t
          else
            st.contents.map fun c =>
              if c.id == cid then approvedContentRecord content uid t else c
        activities :=
          if content.relatedActivities.isEmpty then st.activities
          else
            st.activities.map fun a =>
              if content.relatedActivities.contains a.id then
                { a with status := ActivityStatus.published, publishedAt := some t }
              else a }) := by
  unfold approveContent approvedContentRecord
  rw [hfc]
  dsimp only
  rw [hfu]

/-- Collapse the two content maps of `approveContent` into one. -/
theorem approveContent_contents_char (users : List UserRec) (st : AppState) (cid uid t : Nat)
    (content : ContentRec) (user : UserRec)
    (hfc : st.contents.find? (fun c => c.id == cid) = some content)
    (hfu : users.find? (fun u => u.id == uid) = some user) :
    (approveContent users st cid uid t).2.contents =
      (if user.hasTwitterCreds then
        st.contents.map fun c =>
          if c.id == cid then approvedScheduledContentRecord content uid t else c
      else
        st.contents.map fun c =>
          if c.id == cid then approvedContentRecord content uid t else c) := by
  have hcid : (content.id == cid) = true := by simpa using List.find?_some hfc
  rw [approveContent_eq users st cid uid t content user hfc hfu]
  dsimp only
  cases hcred : user.hasTwitterCreds with
  | false => rfl
  | true =>
    simp only [if_true]
    unfold saveApprovedTweetModel
    rw [List.map_map]
    refine List.map_congr_left ?_
    intro c _
    simp only [Function.comp_apply]
    by_cases hx : (c.id == cid) = true
    · rw [if_pos hx]
      rw [if_pos (show ((approvedContentRecord content uid t).id == cid) = true from hcid)]
      rw [if_pos hx]
      rfl
    · rw [if_neg hx]
      rw [if_neg (show ¬((c.id == cid) = true) from hx)]
      rw [if_neg hx]

theorem find?_map_of_idkey {cid : Nat} {f : ContentRec → ContentRec}
    (hid : ∀ c : ContentRec, ((f c).id == cid) = (c.id == cid)) (l : List ContentRec) :
    (l.map f).find? (fun c => c.id == cid) = (l.find? (fun c => c.id == cid)).map f := by
  induction l with
  | nil => rfl
  | cons x xs ih =>
    by_cases hx : (x.id == cid) = true
    · rw [List.find?_cons_of_pos (p := fun c : ContentRec => c.id == cid) _ hx]
      simp only [List.map_cons]
      rw [List.find?_cons_of_pos (p := fun c : ContentRec => c.id == cid) _
        (show ((f x).id == cid) = true from (hid x).trans hx)]
      rfl
    · rw [List.find?_cons_of_neg (p := fun c : ContentRec => c.id == cid) _ hx]
      simp only [List.map_cons]
      rw [List.find?_cons_of_neg (p := fun c : ContentRec => c.id == cid) _
        (show ¬(((f x).id == cid) = true) from (hid x) ▸ hx)]
      exact ih

theorem map_eq_self_of_mem {α : Type} {l : List α} {f : α → α} (h : ∀ a ∈ l, f a = a) :
    l.map f = l := by
  induction l with
  | nil => rfl
  | cons x xs ih =>
    simp only [List.map_cons]
    rw [h x (List.mem_cons_self x xs), ih fun a ha => h a (List.mem_cons_of_mem x ha)]

/-- Re-applying the related-activity publish map is the identity. -/
theorem publishMap_idem (rel : List Nat) (t : Nat) (l : List Activity) :
    ((l.map fun a =>
        if rel.contains a.id then
          { a with status := ActivityStatus.published, publishedAt := some t }
        else a).map fun a =>
        if rel.contains a.id then
          { a with status := ActivityStatus.published, publishedAt := some t }
        else a) =
      l.map fun a =>
        if rel.contains a.id then
          { a with status := ActivityStatus.published, publishedAt := some t }
        else a := by
  rw [List.map_map]
  refine List.map_congr_left ?_
  intro a _
  simp only [Function.comp_apply]
  by_cases hx : rel.contains a.id = true
  · rw [if_pos hx]
    rw [if_pos (show rel.contains
        ({ a with status := ActivityStatus.published, publishedAt := some t } : Activity).id =
          true from hx)]
  · rw [if_neg hx]
    rw [if_neg hx]

/-- C8 (amended): re-running approve with the SAME timestamp is a genuine
no-op: the second call returns the success message and leaves the store
exactly as the first call left it. (With a different timestamp the second
call is not a no-op — it overwrites `approvedAt`/`publishedAt`/
`scheduledFor`, see the counterexample.) -/
theorem claim8_approve_idempotent_amended (users : List UserRec) (st : AppState)
    (cid uid t : Nat)
    (hc : (st.contents.find? (fun c => c.id == cid)).isSome)
    (hu : (users.find? (fun u => u.id == uid)).isSome) :
    approveContent users (approveContent users st cid uid t).2 cid uid t =
      ("Content approved successfully", (approveContent users st cid uid t).2) := by
  cases hfc : st.contents.find? (fun c => c.id == cid) with
  | none => rw [hfc] at hc; simp at hc
  | some content =>
  cases hfu : users.find? (fun u => u.id == uid) with
  | none => rw [hfu] at hu; simp at hu
  | some user =>
  have hcid : (content.id == cid) = true := by simpa using List.find?_some hfc
  have hchar := approveContent_contents_char users st cid uid t content user hfc hfu
  have hact : (approveContent users st cid uid t).2.activities =
      (if content.relatedActivities.isEmpty then st.activities
       else
        st.activities.map fun a =>
          if content.relatedActivities.contains a.id then
            { a with status := ActivityStatus.published, publishedAt := some t }
          else a) := by
    rw [approveContent_eq users st cid uid t content user hfc hfu]
  cases hcred : user.hasTwitterCreds with
  | true =>
    rw [hcred, if_pos rfl] at hchar
    have hid2 : ∀ c : ContentRec,
        (((fun c => if c.id == cid then approvedScheduledContentRecord content uid t else c)
          c).id == cid) = (c.id == cid) := by
      intro c
      dsimp only
      by_cases hx : (c.id == cid) = true
      · rw [if_pos hx]
        exact hcid.trans hx.symm
      · rw [if_neg hx]
    have hfc₂ : (approveContent users st cid uid t).2.contents.find? (fun c => c.id == cid) =
        some (approvedScheduledContentRecord content uid t) := by
      rw [hchar, find?_map_of_idkey hid2, hfc]
      show some (if (content.id == cid) = true then approvedScheduledContentRecord content uid t
        else content) = some (approvedScheduledContentRecord content uid t)
      rw [if_pos hcid]
    have hmem₂ : ∀ c ∈ (approveContent users st cid uid t).2.contents,
        (c.id == cid) = true → c = approvedScheduledContentRecord content uid t := by
      intro c hcmem hx
      rw [hchar] at hcmem
      rcases List.mem_map.mp hcmem with ⟨c₀, _, heq⟩
      by_cases hx₀ : (c₀.id == cid) = true
      · rw [if_pos hx₀] at heq
        exact heq.symm
      · rw [if_neg hx₀] at heq
        subst heq
        exact absurd hx hx₀
    rw [approveContent_eq users (approveContent users st cid uid t).2 cid uid t
      (approvedScheduledContentRecord content uid t) user hfc₂ hfu]
    refine congrArg (fun x => ("Content approved successfully", x)) ?_
    have hco : (if user.hasTwitterCreds then
          saveApprovedTweetModel
            ((approveContent users st cid uid t).2.contents.map fun c =>
              if c.id == cid then
                approvedContentRecord (approvedScheduledContentRecord content uid t) uid t
              else c) cid t
        else
          (approveContent users st cid uid t).2.contents.map fun c =>
            if c.id == cid then
              approvedContentRecord (approvedScheduledContentRecord content uid t) uid t
            else c) = (approveContent users st cid uid t).2.contents := by
      rw [hcred, if_pos rfl]
      have hinner : ((approveContent users st cid uid t).2.contents.map fun c =>
          if c.id == cid then
            approvedContentRecord (approvedScheduledContentRecord content uid t) uid t
          else c) = (approveContent users st cid uid t).2.contents := by
        refine map_eq_self_of_mem ?_
        intro c hcm
        by_cases hx : (c.id == cid) = true
        · rw [if_pos hx, hmem₂ c hcm hx]
          rfl
        · rw [if_neg hx]
      rw [hinner]
      unfold saveApprovedTweetModel
      refine map_eq_self_of_mem ?_
      intro c hcm
      by_cases hx : (c.id == cid) = true
      · rw [if_pos hx, hmem₂ c hcm hx]
        rfl
      · rw [if_neg hx]
    have hao : (if (approvedScheduledContentRecord content uid t).relatedActivities.isEmpty
          then (approveContent users st cid uid t).2.activities
        else
          (approveContent users st cid uid t).2.activities.map fun a =>
            if (approvedScheduledContentRecord content uid t).relatedActivities.contains a.id
            then { a with status := ActivityStatus.published, publishedAt := some t }
            else a) = (approveContent users st cid uid t).2.activities := by
      show (if content.relatedActivities.isEmpty
          then (approveContent users st cid uid t).2.activities
        else
          (approveContent users st cid uid t).2.activities.map fun a =>
            if content.relatedActivities.contains a.id
            then { a with status := ActivityStatus.published, publishedAt := some t }
            else a) = (approveContent users st cid uid t).2.activities
      cases hemp : content.relatedActivities.isEmpty with
      | true => rw [if_pos rfl]
      | false =>
        rw [if_neg (by simp [hemp])]
        rw [hact, if_neg (by simp [hemp])]
        exact publishMap_idem content.relatedActivities t st.activities
    rw [hco, hao]
  | false =>
    rw [hcred, if_neg (by simp)] at hchar
    have hid2 : ∀ c : ContentRec,
        (((fun c => if c.id == cid then approvedContentRecord content uid t else c)
          c).id == cid) = (c.id == cid) := by
      intro c
      dsimp only
      by_cases hx : (c.id == cid) = true
      · rw [if_pos hx]
        exact hcid.trans hx.symm
      · rw [if_neg hx]
    have hfc₂ : (approveContent users st cid uid t).2.contents.find? (fun c => c.id == cid) =
        some (approvedContentRecord content uid t) := by
      rw [hchar, find?_map_of_idkey hid2, hfc]
      show some (if (content.id == cid) = true then approvedContentRecord content uid t
        else content) = some (approvedContentRecord content uid t)
      rw [if_pos hcid]
    have hmem₂ : ∀ c ∈ (approveContent users st cid uid t).2.contents,
        (c.id == cid) = true → c = approvedContentRecord content uid t := by
      intro c hcmem hx
      rw [hchar] at hcmem
      rcases List.mem_map.mp hcmem with ⟨c₀, _, heq⟩
      by_cases hx₀ : (c₀.id == cid) = true
      · rw [if_pos hx₀] at heq
        exact heq.symm
      · rw [if_neg hx₀] at heq
        subst heq
        exact absurd hx hx₀
    rw [approveContent_eq users (approveContent users st cid uid t).2 cid uid t
      (approvedContentRecord content uid t) user hfc₂ hfu]
    refine congrArg (fun x => ("Content approved successfully", x)) ?_
    have hco : (if user.hasTwitterCreds then
          saveApprovedTweetModel
            ((approveContent users st cid uid t).2.contents.map fun c =>
              if c.id == cid then
                approvedContentRecord (approvedContentRecord content uid t) uid t
              else c) cid t
        else
          (approveContent users st cid uid t).2.contents.map fun c =>
            if c.id == cid then
              approvedContentRecord (approvedContentRecord content uid t) uid t
            else c) = (approveContent users st cid uid t).2.contents := by
      rw [hcred, if_neg (by simp)]
      refine map_eq_self_of_mem ?_
      intro c hcm
      by_cases hx : (c.id == cid) = true
      · rw [if_pos hx, hmem₂ c hcm hx]
        rfl
      · rw [if_neg hx]
    have hao : (if (approvedContentRecord content uid t).relatedActivities.isEmpty
          then (approveContent users st cid uid t).2.activities
        else
          (approveContent users st cid uid t).2.activities.map fun a =>
            if (approvedContentRecord content uid t).relatedActivities.contains a.id
            then { a with status := ActivityStatus.published, publishedAt := some t }
            else a) = (approveContent users st cid uid t).2.activities := by
      show (if content.relatedActivities.isEmpty
          then (approveContent users st cid uid t).2.activities
        else
          (approveContent users st cid uid t).2.activities.map fun a =>
            if content.relatedActivities.contains a.id
            then { a with status := ActivityStatus.published, publishedAt := some t }
            else a) = (approveContent users st cid uid t).2.activities
      cases hemp : content.relatedActivities.isEmpty with
      | true => rw [if_pos rfl]
      | false =>
        rw [if_neg (by simp [hemp])]
        rw [hact, if_neg (by simp [hemp])]
        exact publishMap_idem content.relatedActivities t st.activities
    rw [hco, hao]

/-- Witness for the amended C8: approving content 5 twice at the same
timestamp leaves the store exactly as after the first call, without error. -/
theorem claim8_approve_idempotent_amended_witness :
    approveContent [{ id := 1, telegramChatId := some "10" }]
        (approveContent [{ id := 1, telegramChatId := some "10" }]
          { contents := [{ id := 5, user := 1, text := "hi" }] } 5 1 9).2 5 1 9 =
      ("Content approved successfully",
        (approveContent [{ id := 1, telegramChatId := some "10" }]
          { contents := [{ id := 5, user := 1, text := "hi" }] } 5 1 9).2) :=
  claim8_approve_idempotent_amended [{ id := 1, telegramChatId := some "10" }]
    { contents := [{ id := 5, user := 1, text := "hi" }] } 5 1 9 (by decide) (by decide)

/-- C8 counterexample: approve is NOT a state-level no-op on a second
delivery. Approving content 5 at time 1 and re-approving at time 2 yields a
different final state than a single call: the second call overwrites
`metadata.approvedAt` (1 becomes 2). The second call still succeeds — the
failure is only the "same final state" part of the claim. -/
theorem claim8_counterexample :
    (approveContent [{ id := 1, telegramChatId := some "10" }]
        (approveContent [{ id := 1, telegramChatId := some "10" }]
          { contents := [{ id := 5, user := 1, text := "hi" }] } 5 1 1).2 5 1 2).2 ≠
      (approveContent [{ id := 1, telegramChatId := some "10" }]
        { contents := [{ id := 5, user := 1, text := "hi" }] } 5 1 1).2 ∧
    ((approveContent [{ id := 1, telegramChatId := some "10" }]
        (approveContent [{ id := 1, telegramChatId := some "10" }]
          { contents := [{ id := 5, user := 1, text := "hi" }] } 5 1 1).2 5 1
        2).2.contents.map fun c => c.metadata.approvedAt) = [some 2] ∧
    ((approveContent [{ id := 1, telegramChatId := some "10" }]
        { contents := [{ id := 5, user := 1, text := "hi" }] } 5 1 1).2.contents.map
      fun c => c.metadata.approvedAt) = [some 1] :=
  ⟨by decide, rfl, rfl⟩

/-- C9 counterexample: approving a pending Content whose only reference is
activity 7 puts activity 7 at `published` while the sole Content referencing
it is merely `approved` — a pre-posted state. So an Activity can be
`published` while no Content referencing it is `posted`. -/
theorem claim9_counterexample :
    ((approveContent [{ id := 1, telegramChatId := some "10" }]
      { activities := [{ id := 7, status := .processed }]
        contents := [{ id := 5, user := 1, text := "hi", relatedActivities := [7] }] }
      5 1 3).2.activities.map fun a => a.status) = [ActivityStatus.published] ∧
    ((approveContent [{ id := 1, telegramChatId := some "10" }]
      { activities := [{ id := 7, status := .processed }]
        contents := [{ id := 5, user := 1, text := "hi", relatedActivities := [7] }] }
      5 1 3).2.contents.map fun c => c.status) = [ContentStatus.approved] ∧
    ContentStatus.approved ≠ ContentStatus.posted :=
  ⟨rfl, rfl, by decide⟩

/-- C9 (amended): related Activities are stamped `published` already at
APPROVAL time — `approveContent` sets every related Activity to `published`
while the Content itself only reaches `approved` — and the publisher's
successful-post update (`postTweet`) mutates only the Content record, never
any Activity status. -/
theorem claim9_publication_timing_amended (users : List UserRec) (st : AppState)
    (cid uid now : Nat) (content : ContentRec) (user : UserRec)
    (hfc : st.contents.find? (fun c => c.id == cid) = some content)
    (hfu : users.find? (fun u => u.id == uid) = some user) :
    (∀ a ∈ (approveContent users st cid uid now).2.activities,
      content.relatedActivities.contains a.id = true → a.status = ActivityStatus.published) ∧
    (∀ c ∈ (approveContent users st cid uid now).2.contents, c.id = cid →
      c.status = ContentStatus.approved) ∧
    (∀ (tid : String) (t2 cid2 : Nat),
      (postTweetUpdate st cid2 tid t2).activities = st.activities) := by
  have hchar := approveContent_contents_char users st cid uid now content user hfc hfu
  have hact : (approveContent users st cid uid now).2.activities =
      (if content.relatedActivities.isEmpty then st.activities
       else
        st.activities.map fun a =>
          if content.relatedActivities.contains a.id then
            { a with status := ActivityStatus.published, publishedAt := some now }
          else a) := by
    rw [approveContent_eq users st cid uid now content user hfc hfu]
  refine ⟨?_, ?_, ?_⟩
  · intro a ha hrel
    rw [hact] at ha
    cases hemp : content.relatedActivities.isEmpty with
    | true =>
      exfalso
      have hnil : content.relatedActivities = [] := by simpa using hemp
      rw [hnil] at hrel
      simp at hrel
    | false =>
      rw [if_neg (by simp [hemp])] at ha
      rcases List.mem_map.mp ha with ⟨a₀, _, heq⟩
      by_cases hx : content.relatedActivities.contains a₀.id = true
      · rw [if_pos hx] at heq
        rw [← heq]
      · rw [if_neg hx] at heq
        subst heq
        exact absurd hrel hx
  · intro c hcm hcidEq
    rw [hchar] at hcm
    cases hcred : user.hasTwitterCreds with
    | true =>
      rw [hcred, if_pos rfl] at hcm
      rcases List.mem_map.mp hcm with ⟨c₀, _, heq⟩
      by_cases hx : (c₀.id == cid) = true
      · rw [if_pos hx] at heq
        rw [← heq]
        rfl
      · rw [if_neg hx] at heq
        subst heq
        exact absurd (by simpa using hcidEq) hx
    | false =>
      rw [hcred, if_neg (by simp)] at hcm
      rcases List.mem_map.mp hcm with ⟨c₀, _, heq⟩
      by_cases hx : (c₀.id == cid) = true
      · rw [if_pos hx] at heq
        rw [← heq]
        rfl
      · rw [if_neg hx] at heq
        subst heq
        exact absurd (by simpa using hcidEq) hx
  · intro tid t2 cid2
    rfl

/-- Witness for the amended C9 at concrete inputs: the publisher's
content-only update leaves the activity collection untouched. -/
theorem claim9_publication_timing_amended_witness :
    (postTweetUpdate { contents := [{ id := 5, user := 1, text := "hi" }] } 5 "t1" 8).activities =
      ({ contents := [{ id := 5, user := 1, text := "hi" }] } : AppState).activities := by
  have h := claim9_publication_timing_amended [{ id := 1, telegramChatId := some "10" }]
    { contents := [{ id := 5, user := 1, text := "hi" }] } 5 1 3
    { id := 5, user := 1, text := "hi" } { id := 1, telegramChatId := some "10" } rfl rfl
  exact h.2.2 "t1" 8 5

end Devcast
